import Mathlib

/-!
Verification of the webtero content-transformation pipeline.

The definitions below are a shallow embedding of `webtero/zotero_reader.py`
and `webtero/website_generator.py`.  Python strings are modelled as
`List Char`; Python `None`-able values as `Option`; code that can raise an
uncaught exception returns `Except String` (the payload names the Python
exception).  `int(...)` is modelled on unsigned decimal digit strings (the
only shapes the pipeline feeds it), and `str(...)` on naturals as decimal
rendering.
-/

namespace Webtero

/-- Decidable equality for `Except` results (used to evaluate the embedded
operations on concrete inputs). -/
instance {e a : Type} [DecidableEq e] [DecidableEq a] :
    DecidableEq (Except e a) := fun x y =>
  match x, y with
  | .ok u, .ok v =>
    if h : u = v then isTrue (by rw [h])
    else isFalse (fun hc => by cases hc; exact h rfl)
  | .error u, .error v =>
    if h : u = v then isTrue (by rw [h])
    else isFalse (fun hc => by cases hc; exact h rfl)
  | .ok _, .error _ => isFalse (fun hc => Except.noConfusion hc)
  | .error _, .ok _ => isFalse (fun hc => Except.noConfusion hc)

/-- Python `s.split(sep)` for a single-character separator, on the character
list of the string.  `''.split(sep) = ['']`, and a separator always starts a
new (possibly empty) field, so the result is never the empty list. -/
def pySplit (sep : Char) : List Char → List (List Char)
  | [] => [[]]
  | c :: rest =>
    match pySplit sep rest with
    | [] => [[]]
    | g :: gs => if c = sep then [] :: g :: gs else (c :: g) :: gs

theorem pySplit_ne_nil (sep : Char) (s : List Char) : pySplit sep s ≠ [] := by
  cases s with
  | nil => simp [pySplit]
  | cons c rest =>
    simp only [pySplit]
    cases pySplit sep rest with
    | nil => simp
    | cons g gs =>
      by_cases h : c = sep <;> simp [h]

theorem pySplit_length (sep : Char) (s : List Char) :
    (pySplit sep s).length = s.count sep + 1 := by
  induction s with
  | nil => simp [pySplit]
  | cons c rest ih =>
    simp only [pySplit]
    cases hsp : pySplit sep rest with
    | nil => exact absurd hsp (pySplit_ne_nil sep rest)
    | cons g gs =>
      rw [hsp] at ih
      simp only [List.length_cons] at ih
      by_cases h : c = sep
      · subst h
        simp [List.count_cons_self]
        omega
      · simp [h, List.count_cons_of_ne (fun hc => h hc.symm)]
        omega

theorem pySplit_of_not_mem (sep : Char) (s : List Char) (h : sep ∉ s) :
    pySplit sep s = [s] := by
  induction s with
  | nil => rfl
  | cons c rest ih =>
    simp only [List.mem_cons, not_or] at h
    simp only [pySplit, ih h.2]
    simp [Ne.symm h.1]

theorem pySplit_cons_sep (sep : Char) (s : List Char) :
    pySplit sep (sep :: s) = [] :: pySplit sep s := by
  simp only [pySplit]
  cases hsp : pySplit sep s with
  | nil => exact absurd hsp (pySplit_ne_nil sep s)
  | cons g gs => simp

theorem pySplit_append (sep : Char) (a b : List Char) (g : List Char)
    (gs : List (List Char)) (ha : sep ∉ a) (hb : pySplit sep b = g :: gs) :
    pySplit sep (a ++ b) = (a ++ g) :: gs := by
  induction a with
  | nil => simpa using hb
  | cons c a ih =>
    simp only [List.mem_cons, not_or] at ha
    have h2 : pySplit sep (a.append b) = (a ++ g) :: gs := ih ha.2
    simp only [List.cons_append, pySplit]
    rw [h2]
    simp [Ne.symm ha.1]

/-- Python `s.startswith(p)` for a one-character prefix. -/
def pyStartswith (p : Char) : List Char → Bool
  | [] => false
  | c :: _ => c = p

/-- The numeric value of a decimal digit character, `none` on anything else
(a non-digit makes Python `int(...)` raise `ValueError`). -/
def digitVal? (c : Char) : Option Nat :=
  if c = '0' then some 0 else if c = '1' then some 1 else if c = '2' then some 2
  else if c = '3' then some 3 else if c = '4' then some 4 else if c = '5' then some 5
  else if c = '6' then some 6 else if c = '7' then some 7 else if c = '8' then some 8
  else if c = '9' then some 9 else none

/-- Accumulator loop of the decimal parse. -/
def charsToNatGo : List Char → Nat → Option Nat
  | [], acc => some acc
  | c :: cs, acc =>
    match digitVal? c with
    | some d => charsToNatGo cs (acc * 10 + d)
    | none => none

/-- Python `int(s)` restricted to (non-empty) unsigned decimal digit strings;
`none` models the `ValueError` raised on anything else. -/
def charsToNat? (cs : List Char) : Option Nat :=
  if cs.isEmpty then none else charsToNatGo cs 0

/-- Fuel-driven loop of the decimal rendering (`str(n)` for a natural). -/
def natToCharsGo : Nat → Nat → List Char → List Char
  | 0, _, acc => acc
  | fuel + 1, n, acc =>
    if n < 10 then Nat.digitChar n :: acc
    else natToCharsGo fuel (n / 10) (Nat.digitChar (n % 10) :: acc)

/-- Python `str(n)` for a natural number: decimal rendering. -/
def natToChars (n : Nat) : List Char := natToCharsGo (n + 1) n []

theorem natToCharsGo_acc (fuel : Nat) : ∀ (n : Nat) (acc : List Char),
    natToCharsGo fuel n acc = natToCharsGo fuel n [] ++ acc := by
  induction fuel with
  | zero => intro n acc; simp [natToCharsGo]
  | succ fuel ih =>
    intro n acc
    simp only [natToCharsGo]
    by_cases h : n < 10
    · simp [h]
    · simp only [if_neg h]
      rw [ih (n / 10) (Nat.digitChar (n % 10) :: acc),
        ih (n / 10) [Nat.digitChar (n % 10)]]
      simp

theorem natToCharsGo_fuel (fuel₁ fuel₂ n : Nat) (acc : List Char)
    (h₁ : n < fuel₁) (h₂ : n < fuel₂) :
    natToCharsGo fuel₁ n acc = natToCharsGo fuel₂ n acc := by
  induction n using Nat.strong_induction_on generalizing fuel₁ fuel₂ acc with
  | _ n ih =>
    cases fuel₁ with
    | zero => omega
    | succ f₁ =>
      cases fuel₂ with
      | zero => omega
      | succ f₂ =>
        simp only [natToCharsGo]
        by_cases h : n < 10
        · simp [h]
        · simp only [if_neg h]
          exact ih (n / 10) (by omega) f₁ f₂ _ (by omega) (by omega)

theorem natToChars_eq (n : Nat) :
    natToChars n = if n < 10 then [Nat.digitChar n]
      else natToChars (n / 10) ++ [Nat.digitChar (n % 10)] := by
  by_cases h : n < 10
  · simp [natToChars, natToCharsGo, h]
  · rw [if_neg h]
    conv_lhs => rw [natToChars]
    simp only [natToCharsGo, if_neg h]
    rw [natToCharsGo_acc, natToCharsGo_fuel n (n / 10 + 1) (n / 10) []
      (by omega) (by omega)]
    rfl

theorem digitVal?_digitChar (d : Nat) (h : d < 10) :
    digitVal? (Nat.digitChar d) = some d := by
  interval_cases d <;> rfl

theorem natToChars_digits (n : Nat) : ∀ c ∈ natToChars n, (digitVal? c).isSome := by
  induction n using Nat.strong_induction_on with
  | _ n ih =>
    intro c hc
    rw [natToChars_eq] at hc
    by_cases h : n < 10
    · simp only [if_pos h, List.mem_singleton] at hc
      subst hc
      simp [digitVal?_digitChar n h]
    · simp only [if_neg h, List.mem_append, List.mem_singleton] at hc
      rcases hc with hc | hc
      · exact ih (n / 10) (Nat.div_lt_self (by omega) (by norm_num)) c hc
      · subst hc
        simp [digitVal?_digitChar _ (Nat.mod_lt n (by norm_num))]

theorem natToChars_ne_nil (n : Nat) : natToChars n ≠ [] := by
  rw [natToChars_eq]
  by_cases h : n < 10 <;> simp [h]

theorem charsToNatGo_append (a b : List Char) (acc : Nat) :
    charsToNatGo (a ++ b) acc =
      match charsToNatGo a acc with
      | some m => charsToNatGo b m
      | none => none := by
  induction a generalizing acc with
  | nil => simp [charsToNatGo]
  | cons c cs ih =>
    simp only [List.cons_append, charsToNatGo]
    cases digitVal? c with
    | none => simp
    | some d => simp [ih]

theorem charsToNatGo_natToChars (n : Nat) : ∀ acc : Nat,
    charsToNatGo (natToChars n) acc =
      some (acc * 10 ^ (natToChars n).length + n) := by
  induction n using Nat.strong_induction_on with
  | _ n ih =>
    intro acc
    rw [natToChars_eq]
    by_cases h : n < 10
    · simp [h, charsToNatGo, digitVal?_digitChar n h]
    · simp only [if_neg h]
      rw [charsToNatGo_append, ih (n / 10) (Nat.div_lt_self (by omega) (by norm_num)) acc]
      simp only [charsToNatGo, digitVal?_digitChar _ (Nat.mod_lt n (by norm_num))]
      rw [List.length_append, List.length_singleton, pow_succ]
      congr 1
      have := Nat.div_add_mod n 10
      ring_nf
      omega

theorem charsToNat?_natToChars (n : Nat) : charsToNat? (natToChars n) = some n := by
  rw [charsToNat?, if_neg (by simpa using natToChars_ne_nil n),
    charsToNatGo_natToChars n 0]
  simp

/-! ## Filename size-hint codec

`decodeFilename` embeds the name-convention logic of
`HtmlContent.discover_missing_images` (zotero_reader.py lines 292-316):
`img_name, img_extension = img_filename.split('.')` (an unpacking that raises
`ValueError` unless the split yields exactly two parts), `name_parts =
img_name.split('_')`, the zotero title `name_parts[0] + '.' + img_extension`,
and the `w<N>`/`h<N>` scan of `name_parts[1]` (when `len > 1`) and
`name_parts[2]` (only when `len == 3`).  `encodeFilename` embeds the filename
construction of `HtmlImageTag.initialize_data` (website_generator.py lines
505-518): `src.split('.')[0]`, optional `_w<w>`, optional `_h<h>`, then
`'.' + src.split('.')[1]` (`none` models the `IndexError` raised when the
title has no dot). -/

/-- One `w<N>`/`h<N>` token test: `name_parts[i].startswith('h')` first,
`elif ... .startswith('w')`, otherwise the token is ignored; a matched token
feeds `int(token[1:])`, whose failure (`none`) is a `ValueError`. -/
def parseSizeTok (tok : List Char) (wh : Option Nat × Option Nat) :
    Option (Option Nat × Option Nat) :=
  if pyStartswith 'h' tok then
    match charsToNat? tok.tail with
    | some n => some (wh.1, some n)
    | none => none
  else if pyStartswith 'w' tok then
    match charsToNat? tok.tail with
    | some n => some (some n, wh.2)
    | none => none
  else some wh

/-- The width/height scan over `name_parts[1:]`: `name_parts[1]` is examined
when present, `name_parts[2]` only when it is the last of exactly three
parts. -/
def parseWH : List (List Char) → Option (Option Nat × Option Nat)
  | [] => some (none, none)
  | p1 :: restMore =>
    match parseSizeTok p1 (none, none) with
    | none => none
    | some wh1 =>
      match restMore with
      | [p2] => parseSizeTok p2 wh1
      | _ => some wh1

/-- `img_filename.split('.')` into exactly `(img_name, img_extension)` and
`img_name.split('_')` into `name_parts`; `none` models the `ValueError`
raised by the two-variable unpacking when the filename does not contain
exactly one dot. -/
def splitName (f : List Char) : Option (List Char × List Char × List (List Char)) :=
  match pySplit '.' f with
  | [imgName, ext] =>
    match pySplit '_' imgName with
    | [] => none
    | p0 :: rest => some (p0, ext, rest)
  | _ => none

/-- `decode(filename) -> (canonicalTitle, width?, height?)`:  the pure
name-convention reading of `discover_missing_images` applied to the final
path segment; `none` models an uncaught exception. -/
def decodeFilename (f : List Char) : Option (List Char × Option Nat × Option Nat) :=
  match splitName f with
  | none => none
  | some (p0, ext, rest) =>
    (parseWH rest).map (fun wh => (p0 ++ '.' :: ext, wh.1, wh.2))

/-- `encode(title, width?, height?) -> filename` from
`HtmlImageTag.initialize_data`; `none` models the `IndexError` on
`split('.')[1]` when the title contains no dot. -/
def encodeFilename (title : List Char) (w h : Option Nat) : Option (List Char) :=
  match pySplit '.' title with
  | p0 :: p1 :: _ =>
    some ((p0 ++
      (match w with | some n => '_' :: 'w' :: natToChars n | none => []) ++
      (match h with | some n => '_' :: 'h' :: natToChars n | none => [])) ++
      '.' :: p1)
  | _ => none

/-- C10, main theorem: a final path segment without exactly one dot makes the
size-hint decode raise (`none`) rather than return a result. -/
theorem decode_requires_single_dot (f : List Char) (h : f.count '.' ≠ 1) :
    decodeFilename f = none := by
  have hl := pySplit_length '.' f
  rcases hsp : pySplit '.' f with _ | ⟨a, _ | ⟨b, _ | ⟨c, rest⟩⟩⟩ <;>
    rw [hsp] at hl <;> simp only [List.length_nil, List.length_cons] at hl
  · exact absurd hsp (pySplit_ne_nil '.' f)
  · simp [decodeFilename, splitName, hsp]
  · omega
  · simp [decodeFilename, splitName, hsp]

/-- C10, witness: the extension-less name `photo` (zero dots) is rejected. -/
theorem decode_requires_single_dot_witness :
    ("photo").toList.count '.' ≠ 1 ∧ decodeFilename ("photo").toList = none :=
  ⟨by decide, decode_requires_single_dot ("photo").toList (by decide)⟩

theorem not_mem_natToChars (c : Char) (hc : digitVal? c = none) (n : Nat) :
    c ∉ natToChars n := by
  intro hmem
  have hd := natToChars_digits n c hmem
  rw [hc] at hd
  simp at hd

theorem dot_not_mem_natToChars (n : Nat) : '.' ∉ natToChars n :=
  not_mem_natToChars '.' (by decide) n

theorem us_not_mem_natToChars (n : Nat) : '_' ∉ natToChars n :=
  not_mem_natToChars '_' (by decide) n

/-- C7, counterexample: the round-trip law fails as soon as the title's base
name itself contains an underscore.  Encoding `my_photo.jpg` with width 300
produces the filename `my_photo_w300.jpg`, which decodes to the different
title `my.jpg`. -/
theorem codec_roundtrip_fails :
    encodeFilename ("my_photo.jpg").toList (some 300) none
        = some ("my_photo_w300.jpg").toList ∧
      decodeFilename ("my_photo_w300.jpg").toList
        = some (("my.jpg").toList, some 300, none) ∧
      ("my.jpg").toList ≠ ("my_photo.jpg").toList := by
  refine ⟨by decide, by decide, by decide⟩

/-- `decodeFilename` factored through explicitly given split results. -/
theorem decode_of_splits (f imgName ext p0 : List Char) (rest : List (List Char))
    (h1 : pySplit '.' f = [imgName, ext]) (h2 : pySplit '_' imgName = p0 :: rest) :
    decodeFilename f
      = (parseWH rest).map (fun wh => (p0 ++ '.' :: ext, wh.1, wh.2)) := by
  simp only [decodeFilename, splitName, h1, h2]

theorem parseSizeTok_w (n : Nat) (wh : Option Nat × Option Nat) :
    parseSizeTok ('w' :: natToChars n) wh = some (some n, wh.2) := by
  simp [parseSizeTok, pyStartswith, charsToNat?_natToChars]

theorem parseSizeTok_h (n : Nat) (wh : Option Nat × Option Nat) :
    parseSizeTok ('h' :: natToChars n) wh = some (wh.1, some n) := by
  simp [parseSizeTok, pyStartswith, charsToNat?_natToChars]

theorem parseWH_w (n : Nat) :
    parseWH ['w' :: natToChars n] = some (some n, none) := by
  simp [parseWH, parseSizeTok_w]

theorem parseWH_h (n : Nat) :
    parseWH ['h' :: natToChars n] = some (none, some n) := by
  simp [parseWH, parseSizeTok_h]

theorem parseWH_wh (a b : Nat) :
    parseWH ['w' :: natToChars a, 'h' :: natToChars b] = some (some a, some b) := by
  simp [parseWH, parseSizeTok_w, parseSizeTok_h]

/-- C7, amended: decode is a left inverse of encode for every width/height
pair, provided the canonical title consists of a dot-free, underscore-free
base followed by one dot and a dot-free extension (the shape the underscore
convention reserves: "Underscores should only be used for seperating width
and height parameters, otherwise errors will occur"). -/
theorem codec_roundtrip (base ext : List Char) (w h : Option Nat)
    (hdb : '.' ∉ base) (hub : '_' ∉ base) (hde : '.' ∉ ext) :
    (encodeFilename (base ++ '.' :: ext) w h).bind decodeFilename
      = some (base ++ '.' :: ext, w, h) := by
  have hdotext : pySplit '.' ('.' :: ext) = [] :: [ext] := by
    rw [pySplit_cons_sep, pySplit_of_not_mem '.' ext hde]
  have htitle : pySplit '.' (base ++ '.' :: ext) = [base, ext] := by
    have h2 := pySplit_append '.' base ('.' :: ext) [] [ext] hdb hdotext
    rw [List.append_nil] at h2
    exact h2
  have hsplith : pySplit '_' ('_' :: 'h' :: natToChars 0) = [] :: ['h' :: natToChars 0] := by
    rw [pySplit_cons_sep]
    rfl
  rcases w with _ | a <;> rcases h with _ | b
  · -- no width, no height: the filename is the title itself
    have hF : encodeFilename (base ++ '.' :: ext) none none
        = some (base ++ '.' :: ext) := by
      simp only [encodeFilename, htitle, List.append_nil]
    rw [hF]
    show decodeFilename (base ++ '.' :: ext) = some (base ++ '.' :: ext, none, none)
    rw [decode_of_splits (base ++ '.' :: ext) base ext base [] htitle
      (pySplit_of_not_mem '_' base hub)]
    rfl
  · -- height only: `base_h<b>.ext`
    have hF : encodeFilename (base ++ '.' :: ext) none (some b)
        = some ((base ++ '_' :: 'h' :: natToChars b) ++ '.' :: ext) := by
      simp only [encodeFilename, htitle, List.append_nil]
    have hstem : pySplit '_' (base ++ '_' :: 'h' :: natToChars b)
        = base :: ['h' :: natToChars b] := by
      have h1 : pySplit '_' ('_' :: 'h' :: natToChars b)
          = [] :: ['h' :: natToChars b] := by
        rw [pySplit_cons_sep, pySplit_of_not_mem '_' ('h' :: natToChars b)
          (by simp [us_not_mem_natToChars b])]
      have h2 := pySplit_append '_' base ('_' :: 'h' :: natToChars b) []
        ['h' :: natToChars b] hub h1
      rw [List.append_nil] at h2
      exact h2
    have hdot : pySplit '.' ((base ++ '_' :: 'h' :: natToChars b) ++ '.' :: ext)
        = [base ++ '_' :: 'h' :: natToChars b, ext] := by
      have h2 := pySplit_append '.' (base ++ '_' :: 'h' :: natToChars b)
        ('.' :: ext) [] [ext]
        (by simp [hdb, dot_not_mem_natToChars b]) hdotext
      rw [List.append_nil] at h2
      exact h2
    rw [hF]
    show decodeFilename ((base ++ '_' :: 'h' :: natToChars b) ++ '.' :: ext)
      = some (base ++ '.' :: ext, none, some b)
    rw [decode_of_splits ((base ++ '_' :: 'h' :: natToChars b) ++ '.' :: ext)
      (base ++ '_' :: 'h' :: natToChars b) ext base ['h' :: natToChars b]
      hdot hstem, parseWH_h]
    rfl
  · -- width only: `base_w<a>.ext`
    have hF : encodeFilename (base ++ '.' :: ext) (some a) none
        = some ((base ++ '_' :: 'w' :: natToChars a) ++ '.' :: ext) := by
      simp only [encodeFilename, htitle, List.append_nil]
    have hstem : pySplit '_' (base ++ '_' :: 'w' :: natToChars a)
        = base :: ['w' :: natToChars a] := by
      have h1 : pySplit '_' ('_' :: 'w' :: natToChars a)
          = [] :: ['w' :: natToChars a] := by
        rw [pySplit_cons_sep, pySplit_of_not_mem '_' ('w' :: natToChars a)
          (by simp [us_not_mem_natToChars a])]
      have h2 := pySplit_append '_' base ('_' :: 'w' :: natToChars a) []
        ['w' :: natToChars a] hub h1
      rw [List.append_nil] at h2
      exact h2
    have hdot : pySplit '.' ((base ++ '_' :: 'w' :: natToChars a) ++ '.' :: ext)
        = [base ++ '_' :: 'w' :: natToChars a, ext] := by
      have h2 := pySplit_append '.' (base ++ '_' :: 'w' :: natToChars a)
        ('.' :: ext) [] [ext]
        (by simp [hdb, dot_not_mem_natToChars a]) hdotext
      rw [List.append_nil] at h2
      exact h2
    rw [hF]
    show decodeFilename ((base ++ '_' :: 'w' :: natToChars a) ++ '.' :: ext)
      = some (base ++ '.' :: ext, some a, none)
    rw [decode_of_splits ((base ++ '_' :: 'w' :: natToChars a) ++ '.' :: ext)
      (base ++ '_' :: 'w' :: natToChars a) ext base ['w' :: natToChars a]
      hdot hstem, parseWH_w]
    rfl
  · -- both: `base_w<a>_h<b>.ext`
    have hF : encodeFilename (base ++ '.' :: ext) (some a) (some b)
        = some ((base ++ '_' :: 'w' :: natToChars a ++ '_' :: 'h' :: natToChars b)
          ++ '.' :: ext) := by
      simp only [encodeFilename, htitle]
    have hstem : pySplit '_'
        (base ++ '_' :: 'w' :: natToChars a ++ '_' :: 'h' :: natToChars b)
        = base :: ('w' :: natToChars a) :: ['h' :: natToChars b] := by
      have h1 : pySplit '_' ('_' :: 'h' :: natToChars b)
          = [] :: ['h' :: natToChars b] := by
        rw [pySplit_cons_sep, pySplit_of_not_mem '_' ('h' :: natToChars b)
          (by simp [us_not_mem_natToChars b])]
      have h2 := pySplit_append '_' ('w' :: natToChars a)
        ('_' :: 'h' :: natToChars b) [] ['h' :: natToChars b]
        (by simp [us_not_mem_natToChars a]) h1
      rw [List.append_nil] at h2
      have h3 : pySplit '_'
          ('_' :: ('w' :: natToChars a ++ '_' :: 'h' :: natToChars b))
          = [] :: ('w' :: natToChars a) :: ['h' :: natToChars b] := by
        rw [pySplit_cons_sep, h2]
      have h4 := pySplit_append '_' base
        ('_' :: ('w' :: natToChars a ++ '_' :: 'h' :: natToChars b)) []
        (('w' :: natToChars a) :: ['h' :: natToChars b]) hub h3
      rw [List.append_nil] at h4
      have hbridge : base ++ '_' :: 'w' :: natToChars a ++ '_' :: 'h' :: natToChars b
          = base ++ '_' :: ('w' :: natToChars a ++ '_' :: 'h' :: natToChars b) := by
        simp
      rw [hbridge]
      exact h4
    have hdot : pySplit '.'
        ((base ++ '_' :: 'w' :: natToChars a ++ '_' :: 'h' :: natToChars b)
          ++ '.' :: ext)
        = [base ++ '_' :: 'w' :: natToChars a ++ '_' :: 'h' :: natToChars b,
            ext] := by
      have h2 := pySplit_append '.'
        (base ++ '_' :: 'w' :: natToChars a ++ '_' :: 'h' :: natToChars b)
        ('.' :: ext) [] [ext]
        (by simp [hdb, dot_not_mem_natToChars a, dot_not_mem_natToChars b])
        hdotext
      rw [List.append_nil] at h2
      exact h2
    rw [hF]
    show decodeFilename
        ((base ++ '_' :: 'w' :: natToChars a ++ '_' :: 'h' :: natToChars b)
          ++ '.' :: ext)
      = some (base ++ '.' :: ext, some a, some b)
    rw [decode_of_splits
      ((base ++ '_' :: 'w' :: natToChars a ++ '_' :: 'h' :: natToChars b)
        ++ '.' :: ext)
      (base ++ '_' :: 'w' :: natToChars a ++ '_' :: 'h' :: natToChars b)
      ext base (('w' :: natToChars a) :: ['h' :: natToChars b]) hdot hstem,
      parseWH_wh]
    rfl

/-- C7, witness for the amended round-trip at `photo.jpg`, width 300,
height 200. -/
theorem codec_roundtrip_witness :
    '.' ∉ ("photo").toList ∧ '_' ∉ ("photo").toList ∧ '.' ∉ ("jpg").toList ∧
      (encodeFilename (("photo").toList ++ '.' :: ("jpg").toList)
          (some 300) (some 200)).bind decodeFilename
        = some (("photo").toList ++ '.' :: ("jpg").toList, some 300, some 200) :=
  ⟨by decide, by decide, by decide,
    codec_roundtrip ("photo").toList ("jpg").toList (some 300) (some 200)
      (by decide) (by decide) (by decide)⟩

/-! ## Image fit computation

`fitSize` embeds the size computation of `HtmlImage.create_image_file`
(zotero_reader.py lines 541-551).  Python truthiness of `width`/`height`
(`if width and width < img_w`) makes both `None` and `0` skip a bound.  The
float expression `int((width/float(img_w)) * img_h)` is modelled as exact
rational scaling truncated to a natural, i.e. `width * img_h / img_w` in
natural division. -/

/-- `size_1`: the fit-to-width candidate. -/
def fitCand1 (W H : Nat) (bw : Option Nat) : Nat × Nat :=
  match bw with
  | some w => if 0 < w ∧ w < W then (w, w * H / W) else (W, H)
  | none => (W, H)

/-- `size_2`: the fit-to-height candidate. -/
def fitCand2 (W H : Nat) (bh : Option Nat) : Nat × Nat :=
  match bh with
  | some h => if 0 < h ∧ h < H then (h * W / H, h) else (W, H)
  | none => (W, H)

/-- `if size_1[0] > size_2[0]: size = size_2 else: size = size_1`. -/
def fitSize (W H : Nat) (bw bh : Option Nat) : Nat × Nat :=
  if (fitCand1 W H bw).1 > (fitCand2 W H bh).1 then fitCand2 W H bh
  else fitCand1 W H bw

/-- C6, counterexample: a requested width bound of 0 (e.g. from a filename
`photo_w0.jpg`) is set in the data model but falsy in Python, so the resize
returns the native size, violating `size.w <= bw`. -/
theorem fit_zero_bound_violated :
    fitSize 100 100 (some 0) none = (100, 100) ∧ ¬((100 : Nat) ≤ 0) := by
  refine ⟨by decide, by decide⟩

/-- C6, amended: for positive native dimensions and positive set bounds (at
least one set), the computed size respects every set bound, preserves the
aspect ratio up to truncation (one side is the exact scaled-and-floored image
of the other, or the size is native), and when both bounds are set its area
is no larger than either candidate uniform scaling. -/
theorem fit_invariant (W H : Nat) (bw bh : Option Nat)
    (hW : 0 < W) (hH : 0 < H) (hset : bw.isSome ∨ bh.isSome)
    (hbw : ∀ b, bw = some b → 0 < b) (hbh : ∀ b, bh = some b → 0 < b) :
    (∀ b, bw = some b → (fitSize W H bw bh).1 ≤ b) ∧
    (∀ b, bh = some b → (fitSize W H bw bh).2 ≤ b) ∧
    (fitSize W H bw bh = (W, H) ∨
      (fitSize W H bw bh).2 = (fitSize W H bw bh).1 * H / W ∨
      (fitSize W H bw bh).1 = (fitSize W H bw bh).2 * W / H) ∧
    (∀ a b, bw = some a → bh = some b →
      (fitSize W H bw bh).1 * (fitSize W H bw bh).2
          ≤ (fitCand1 W H bw).1 * (fitCand1 W H bw).2 ∧
        (fitSize W H bw bh).1 * (fitSize W H bw bh).2
          ≤ (fitCand2 W H bh).1 * (fitCand2 W H bh).2) := by
  clear hset
  rcases bw with _ | a <;> rcases bh with _ | b
  · -- neither bound set: native size
    simp [fitSize, fitCand1, fitCand2]
  · -- height only
    have hbpos : 0 < b := hbh b rfl
    by_cases hb : b < H
    · have hmul : b * W < H * W := (Nat.mul_lt_mul_right hW).2 hb
      have hlt : b * W / H < W := Nat.div_lt_of_lt_mul hmul
      have e2 : fitCand2 W H (some b) = (b * W / H, b) := by
        simp only [fitCand2]
        rw [if_pos (And.intro hbpos hb)]
      have hs : fitSize W H none (some b) = (b * W / H, b) := by
        simp only [fitSize, fitCand1, e2]
        rw [if_pos (show ((b * W / H, b) : Nat × Nat).1 < ((W, H) : Nat × Nat).1 from hlt)]
      rw [hs]
      refine ⟨by simp, ?_, Or.inr (Or.inr rfl), by simp⟩
      intro x hx
      cases hx
      exact le_refl b
    · have e2 : fitCand2 W H (some b) = (W, H) := by
        simp only [fitCand2]
        rw [if_neg (show ¬(0 < b ∧ b < H) by omega)]
      have hWW : ¬(W < W) := by omega
      have hs : fitSize W H none (some b) = (W, H) := by
        simp only [fitSize, fitCand1, e2]
        rw [if_neg (show ¬(((W, H) : Nat × Nat).1 < ((W, H) : Nat × Nat).1) from hWW)]
      rw [hs]
      refine ⟨by simp, ?_, Or.inl rfl, by simp⟩
      intro x hx
      cases hx
      show H ≤ b
      omega
  · -- width only
    have hapos : 0 < a := hbw a rfl
    by_cases ha : a < W
    · have e1 : fitCand1 W H (some a) = (a, a * H / W) := by
        simp only [fitCand1]
        rw [if_pos (And.intro hapos ha)]
      have hWa : ¬(W < a) := by omega
      have hs : fitSize W H (some a) none = (a, a * H / W) := by
        simp only [fitSize, fitCand2, e1]
        rw [if_neg (show ¬(((W, H) : Nat × Nat).1 < ((a, a * H / W) : Nat × Nat).1) from hWa)]
      rw [hs]
      refine ⟨?_, by simp, Or.inr (Or.inl rfl), by simp⟩
      intro x hx
      cases hx
      exact le_refl a
    · have e1 : fitCand1 W H (some a) = (W, H) := by
        simp only [fitCand1]
        rw [if_neg (show ¬(0 < a ∧ a < W) by omega)]
      have hWW : ¬(W < W) := by omega
      have hs : fitSize W H (some a) none = (W, H) := by
        simp only [fitSize, fitCand2, e1]
        rw [if_neg (show ¬(((W, H) : Nat × Nat).1 < ((W, H) : Nat × Nat).1) from hWW)]
      rw [hs]
      refine ⟨?_, by simp, Or.inl rfl, by simp⟩
      intro x hx
      cases hx
      show W ≤ a
      omega
  · -- both bounds set
    have hapos : 0 < a := hbw a rfl
    have hbpos : 0 < b := hbh b rfl
    by_cases ha : a < W <;> by_cases hb : b < H
    · -- both strictly below native: genuine two-candidate comparison
      have e1 : fitCand1 W H (some a) = (a, a * H / W) := by
        simp only [fitCand1]
        rw [if_pos (And.intro hapos ha)]
      have e2 : fitCand2 W H (some b) = (b * W / H, b) := by
        simp only [fitCand2]
        rw [if_pos (And.intro hbpos hb)]
      by_cases hcmp : b * W / H < a
      · -- fit-to-height candidate chosen
        have hawh : b * W < a * H := (Nat.div_lt_iff_lt_mul hH).1 hcmp
        have hble : b ≤ a * H / W := (Nat.le_div_iff_mul_le hW).2 (le_of_lt hawh)
        have hs : fitSize W H (some a) (some b) = (b * W / H, b) := by
          simp only [fitSize, e1, e2]
          rw [if_pos (show ((b * W / H, b) : Nat × Nat).1 < ((a, a * H / W) : Nat × Nat).1 from hcmp)]
        rw [hs, e1, e2]
        refine ⟨?_, ?_, Or.inr (Or.inr rfl), ?_⟩
        · intro x hx
          cases hx
          show b * W / H ≤ a
          omega
        · intro x hx
          cases hx
          exact le_refl b
        · intro x y hx hy
          cases hx
          cases hy
          exact ⟨Nat.mul_le_mul (le_of_lt hcmp) hble, le_refl _⟩
      · -- fit-to-width candidate chosen
        have hale : a ≤ b * W / H := Nat.le_of_not_lt hcmp
        have hawh : a * H ≤ b * W := (Nat.le_div_iff_mul_le hH).1 hale
        have hhle : a * H / W ≤ b := by
          have h2 : a * H / W ≤ b * W / W := Nat.div_le_div_right hawh
          rwa [Nat.mul_div_cancel _ hW] at h2
        have hs : fitSize W H (some a) (some b) = (a, a * H / W) := by
          simp only [fitSize, e1, e2]
          rw [if_neg (show ¬(((b * W / H, b) : Nat × Nat).1 < ((a, a * H / W) : Nat × Nat).1) from hcmp)]
        rw [hs, e1, e2]
        refine ⟨?_, ?_, Or.inr (Or.inl rfl), ?_⟩
        · intro x hx
          cases hx
          exact le_refl a
        · intro x hx
          cases hx
          exact hhle
        · intro x y hx hy
          cases hx
          cases hy
          exact ⟨le_refl _, Nat.mul_le_mul hale hhle⟩
    · -- width bound below native, height bound at least native
      have e1 : fitCand1 W H (some a) = (a, a * H / W) := by
        simp only [fitCand1]
        rw [if_pos (And.intro hapos ha)]
      have e2 : fitCand2 W H (some b) = (W, H) := by
        simp only [fitCand2]
        rw [if_neg (show ¬(0 < b ∧ b < H) by omega)]
      have hWa : ¬(W < a) := by omega
      have hhH : a * H / W ≤ H := by
        have h2 : a * H / W ≤ W * H / W :=
          Nat.div_le_div_right (Nat.mul_le_mul_right H (le_of_lt ha))
        rwa [Nat.mul_div_cancel_left _ hW] at h2
      have hs : fitSize W H (some a) (some b) = (a, a * H / W) := by
        simp only [fitSize, e1, e2]
        rw [if_neg (show ¬(((W, H) : Nat × Nat).1 < ((a, a * H / W) : Nat × Nat).1) from hWa)]
      rw [hs, e1, e2]
      refine ⟨?_, ?_, Or.inr (Or.inl rfl), ?_⟩
      · intro x hx
        cases hx
        exact le_refl a
      · intro x hx
        cases hx
        show a * H / W ≤ b
        omega
      · intro x y hx hy
        cases hx
        cases hy
        exact ⟨le_refl _, Nat.mul_le_mul (le_of_lt ha) hhH⟩
    · -- width bound at least native, height bound below native
      have e1 : fitCand1 W H (some a) = (W, H) := by
        simp only [fitCand1]
        rw [if_neg (show ¬(0 < a ∧ a < W) by omega)]
      have e2 : fitCand2 W H (some b) = (b * W / H, b) := by
        simp only [fitCand2]
        rw [if_pos (And.intro hbpos hb)]
      have hmul : b * W < H * W := (Nat.mul_lt_mul_right hW).2 hb
      have hlt : b * W / H < W := Nat.div_lt_of_lt_mul hmul
      have hs : fitSize W H (some a) (some b) = (b * W / H, b) := by
        simp only [fitSize, e1, e2]
        rw [if_pos (show ((b * W / H, b) : Nat × Nat).1 < ((W, H) : Nat × Nat).1 from hlt)]
      rw [hs, e1, e2]
      refine ⟨?_, ?_, Or.inr (Or.inr rfl), ?_⟩
      · intro x hx
        cases hx
        show b * W / H ≤ a
        omega
      · intro x hx
        cases hx
        exact le_refl b
      · intro x y hx hy
        cases hx
        cases hy
        exact ⟨Nat.mul_le_mul (le_of_lt hlt) (le_of_lt hb), le_refl _⟩
    · -- both bounds at least native: native size
      have e1 : fitCand1 W H (some a) = (W, H) := by
        simp only [fitCand1]
        rw [if_neg (show ¬(0 < a ∧ a < W) by omega)]
      have e2 : fitCand2 W H (some b) = (W, H) := by
        simp only [fitCand2]
        rw [if_neg (show ¬(0 < b ∧ b < H) by omega)]
      have hWW : ¬(W < W) := by omega
      have hs : fitSize W H (some a) (some b) = (W, H) := by
        simp only [fitSize, e1, e2]
        rw [if_neg (show ¬(((W, H) : Nat × Nat).1 < ((W, H) : Nat × Nat).1) from hWW)]
      rw [hs, e1, e2]
      refine ⟨?_, ?_, Or.inl rfl, ?_⟩
      · intro x hx
        cases hx
        show W ≤ a
        omega
      · intro x hx
        cases hx
        show H ≤ b
        omega
      · intro x y hx hy
        cases hx
        cases hy
        exact ⟨le_refl _, le_refl _⟩

/-- C6, witness: native 100x50 with bounds 30 wide, 20 high. -/
theorem fit_invariant_witness :
    (0 : Nat) < 100 ∧ (0 : Nat) < 50 ∧
    ((∀ b, (some 30 : Option Nat) = some b → (fitSize 100 50 (some 30) (some 20)).1 ≤ b) ∧
    (∀ b, (some 20 : Option Nat) = some b → (fitSize 100 50 (some 30) (some 20)).2 ≤ b) ∧
    (fitSize 100 50 (some 30) (some 20) = (100, 50) ∨
      (fitSize 100 50 (some 30) (some 20)).2 = (fitSize 100 50 (some 30) (some 20)).1 * 50 / 100 ∨
      (fitSize 100 50 (some 30) (some 20)).1 = (fitSize 100 50 (some 30) (some 20)).2 * 100 / 50) ∧
    (∀ a b, (some 30 : Option Nat) = some a → (some 20 : Option Nat) = some b →
      (fitSize 100 50 (some 30) (some 20)).1 * (fitSize 100 50 (some 30) (some 20)).2
          ≤ (fitCand1 100 50 (some 30)).1 * (fitCand1 100 50 (some 30)).2 ∧
        (fitSize 100 50 (some 30) (some 20)).1 * (fitSize 100 50 (some 30) (some 20)).2
          ≤ (fitCand2 100 50 (some 20)).1 * (fitCand2 100 50 (some 20)).2)) :=
  ⟨by decide, by decide,
    fit_invariant 100 50 (some 30) (some 20) (by decide) (by decide)
      (Or.inl rfl) (fun b hb => by cases hb; decide)
      (fun b hb => by cases hb; decide)⟩

/-! ## Flat DOM model and heading anchors

An HTML fragment is modelled as the document-order list of its elements (the
order in which BeautifulSoup `find_all` traverses them); an element carries
its tag name and attribute list.  `process_h_tags` embeds the enumeration
loop of `HtmlContent.process_html_tags` (zotero_reader.py lines 264-266,
anchor prefix `"head"`) and of `HtmlContent._process_h_tags`
(website_generator.py lines 453-454, anchor prefix `"h_" + html_id`):
`for i, soup_h in enumerate(soup.find_all(['h1',...,'h6'])):
soup_h['id'] = <prefix> + "_" + str(i)`. -/

structure Elem where
  name : String
  attrs : List (String × String)
deriving DecidableEq

/-- `tag.get(key)`: first attribute with the given key, if any. -/
def getAttr (e : Elem) (k : String) : Option String :=
  (e.attrs.find? (fun kv => kv.1 == k)).map (fun kv => kv.2)

/-- `tag[key] = v`: set (overwrite) an attribute. -/
def setAttr (e : Elem) (k v : String) : Elem :=
  { e with attrs := (k, v) :: e.attrs.filter (fun kv => kv.1 != k) }

def isHeading (e : Elem) : Bool :=
  e.name == "h1" || e.name == "h2" || e.name == "h3" ||
  e.name == "h4" || e.name == "h5" || e.name == "h6"

/-- `soup.find_all(['h1','h2','h3','h4','h5','h6'])` in document order. -/
def headings (doc : List Elem) : List Elem := doc.filter isHeading

/-- The enumerate-and-assign loop over the headings of one fragment, starting
at counter value `i`. -/
def process_h_tags (pfx : String) : List Elem → Nat → List Elem
  | [], _ => []
  | e :: rest, i =>
    if isHeading e then
      setAttr e "id" (pfx ++ "_" ++ Nat.repr i) :: process_h_tags pfx rest (i + 1)
    else
      e :: process_h_tags pfx rest i

theorem isHeading_setAttr (e : Elem) (k v : String) :
    isHeading (setAttr e k v) = isHeading e := rfl

theorem getAttr_setAttr (e : Elem) (k v : String) :
    getAttr (setAttr e k v) k = some v := by
  simp [getAttr, setAttr, List.find?]

theorem process_h_tags_spec (pfx : String) (doc : List Elem) : ∀ i : Nat,
    (headings (process_h_tags pfx doc i)).map (fun e => getAttr e "id")
      = (List.range (headings doc).length).map
          (fun j => some (pfx ++ "_" ++ Nat.repr (i + j))) := by
  induction doc with
  | nil => intro i; simp [headings, process_h_tags]
  | cons e rest ih =>
    intro i
    by_cases h : isHeading e
    · have htail := ih (i + 1)
      simp only [headings] at htail
      simp only [process_h_tags, if_pos h, headings, List.filter_cons,
        isHeading_setAttr, h, if_true, List.map_cons, getAttr_setAttr,
        List.length_cons, List.range_succ_eq_map, List.map_map]
      rw [htail]
      refine List.cons_eq_cons.2 ⟨?_, ?_⟩
      · rw [Nat.add_zero]
      · apply List.map_congr_left
        intro j hj
        simp only [Function.comp]
        have harith : (i + 1) + j = i + (j + 1) := by omega
        rw [harith]
    · have htail := ih i
      simp only [headings] at htail
      simp only [process_h_tags, headings, List.filter_cons, h,
        Bool.false_eq_true, if_false]
      exact htail

/-- C9: after heading processing, the document-order list of heading ids is
exactly `<prefix>_0, <prefix>_1, ...`: zero-based, strictly increasing in
document order. -/
theorem heading_anchor_ids (pfx : String) (doc : List Elem) :
    (headings (process_h_tags pfx doc 0)).map (fun e => getAttr e "id")
      = (List.range (headings doc).length).map
          (fun j => some (pfx ++ "_" ++ Nat.repr j)) := by
  rw [process_h_tags_spec pfx doc 0]
  apply List.map_congr_left
  intro j hj
  rw [Nat.zero_add]

/-! ## Primary-fragment selection per tab

`selectMainText` embeds `WebPageTab.get_tab_content` (zotero_reader.py lines
194-217): with exactly one note its content is used; otherwise the loop
`for page in self.html_content: if 'main-text' in page.ztags: main_text =
page` (no break) keeps overwriting, and a tab with no selected note renders
the fixed placeholder. -/

structure PageNote where
  html : String
  ztags : List String
deriving DecidableEq

def selectMainText (pages : List PageNote) : Option PageNote :=
  if pages.length = 1 then pages.head?
  else pages.foldl
    (fun acc p => if "main-text" ∈ p.ztags then some p else acc) none

/-- The `{1}` slot of the tab template: the selected note's html, or the
placeholder. -/
def tab_main_html (pages : List PageNote) : String :=
  match selectMainText pages with
  | some m => m.html
  | none => "Under construction..."

/-- C3, counterexample: with two fragments both tagged `main-text` the code
selects the second (last), not the first; and with two untagged fragments it
selects none at all and renders the placeholder instead of falling back to
the first fragment. -/
theorem main_text_selection_not_first :
    selectMainText [⟨"A", ["main-text"]⟩, ⟨"B", ["main-text"]⟩]
        = some ⟨"B", ["main-text"]⟩ ∧
      some (⟨"B", ["main-text"]⟩ : PageNote) ≠ some ⟨"A", ["main-text"]⟩ ∧
      selectMainText [⟨"C", []⟩, ⟨"D", []⟩] = none ∧
      tab_main_html [⟨"C", []⟩, ⟨"D", []⟩] = "Under construction..." := by
  refine ⟨by decide, by decide, by decide, by decide⟩

theorem foldl_mainText (l : List PageNote) : ∀ acc : Option PageNote,
    l.foldl (fun acc p => if "main-text" ∈ p.ztags then some p else acc) acc
      = ((l.filter (fun p => decide ("main-text" ∈ p.ztags))).getLast?).elim
          acc some := by
  induction l using List.reverseRecOn with
  | nil => intro acc; simp
  | append_singleton l p ih =>
    intro acc
    rw [List.foldl_append, List.filter_append]
    by_cases h : "main-text" ∈ p.ztags
    · simp [h, List.getLast?_concat]
    · simp [h, ih acc]

/-- C3, amended: if a tab has exactly one fragment it is the primary; with
any other number of fragments the primary is the LAST fragment tagged
`main-text` in original order (the selection loop has no break, so later
tagged fragments override earlier ones); if no fragment carries the tag,
no primary is selected (the tab renders a placeholder) rather than falling
back to the first fragment. -/
theorem main_text_selection_policy (pages : List PageNote) :
    selectMainText pages
      = if pages.length = 1 then pages.head?
        else (pages.filter (fun p => decide ("main-text" ∈ p.ztags))).getLast? := by
  by_cases h : pages.length = 1
  · simp [selectMainText, h]
  · simp only [selectMainText, if_neg h, foldl_mainText pages none]
    cases (pages.filter (fun p => decide ("main-text" ∈ p.ztags))).getLast? <;> rfl

/-! ## Tab construction from raw records

`webPageTab_init` embeds `WebPageTab.__init__` (zotero_reader.py lines
140-151): `name_parts = data['name'].split('_')`, `assert len(name_parts) ==
2` (an `AssertionError` models the uncaught assertion failure),
`sort_key = int(name_parts[0])` (a `ValueError` on a non-numeric prefix),
`name = name_parts[1]`, `html_id = name.lower().replace(' ', '-')`.
`initialize_tabs` embeds the loop of `TabbedWebsite.initialize_data` (lines
87-92): each record is turned into a tab and appended with NO try/except, so
an exception propagates out of the loop; only on normal completion is the
accumulated list sorted ascending by `sort_key` (`list.sort` is stable).
`tab.initialize_data()` only accumulates diagnostics (its body is fully
wrapped in try/except) and is modelled as a no-op. -/

def pyLower (s : List Char) : List Char := s.map Char.toLower

def pyReplaceChar (a b : Char) (s : List Char) : List Char :=
  s.map (fun c => if c = a then b else c)

structure TabData where
  collectionKey : String
  name : String
deriving DecidableEq

structure WebPageTab where
  coll_id : String
  sort_key : Nat
  tabName : List Char
  html_id : List Char
deriving DecidableEq

def webPageTab_init (d : TabData) : Except String WebPageTab :=
  match pySplit '_' d.name.toList with
  | [p0, p1] =>
    match charsToNat? p0 with
    | some k => .ok ⟨d.collectionKey, k, p1, pyReplaceChar ' ' '-' (pyLower p1)⟩
    | none => .error "ValueError"
  | _ => .error "AssertionError"

/-- Stable ascending insertion by key (the behaviour of Python
`list.sort(key=...)`): an element is placed before the first element with a
strictly greater key, after all earlier elements with an equal key. -/
def pyInsertByKey (key : α → Nat) (x : α) : List α → List α
  | [] => [x]
  | y :: ys => if key x ≤ key y then x :: y :: ys else y :: pyInsertByKey key x ys

def pySortByKey (key : α → Nat) (l : List α) : List α :=
  l.foldr (pyInsertByKey key) []

/-- The tab loop of `TabbedWebsite.initialize_data`: returns the tabs
accumulated in `self.tabs` and, when a record's name fails to parse, the
uncaught exception that aborted the loop (the sort line is only reached when
no exception occurred). -/
def initialize_tabs_go : List TabData → List WebPageTab →
    List WebPageTab × Option String
  | [], acc => (pySortByKey WebPageTab.sort_key acc, none)
  | d :: rest, acc =>
    match webPageTab_init d with
    | .ok t => initialize_tabs_go rest (acc ++ [t])
    | .error e => (acc, some e)

def initialize_tabs (ds : List TabData) : List WebPageTab × Option String :=
  initialize_tabs_go ds []

/-- C4, counterexample: with records named `1_A`, `About Me`, `2_B`, the
unparseable second record raises an uncaught AssertionError: only the tab
for `1_A` has been built, the build aborts, and `2_B` is never produced —
the page does not continue with the remaining tabs. -/
theorem tab_bad_name_aborts :
    initialize_tabs [⟨"K1", "1_A"⟩, ⟨"K2", "About Me"⟩, ⟨"K3", "2_B"⟩]
      = ([⟨"K1", 1, ['A'], ['a']⟩], some "AssertionError") := by
  decide

theorem initialize_tabs_go_abort (d : TabData) (post : List TabData)
    (e : String) (hd : webPageTab_init d = .error e) :
    ∀ (pre : List TabData) (acc : List WebPageTab),
    (∀ x ∈ pre, ∃ t, webPageTab_init x = .ok t) →
    initialize_tabs_go (pre ++ d :: post) acc
      = (acc ++ pre.filterMap (fun x => (webPageTab_init x).toOption),
          some e) := by
  intro pre
  induction pre with
  | nil =>
    intro acc hpre
    simp [initialize_tabs_go, hd]
  | cons x pre ih =>
    intro acc hpre
    rcases hpre x (by simp) with ⟨t, ht⟩
    rw [List.cons_append]
    simp only [initialize_tabs_go, ht]
    rw [ih (acc ++ [t]) (fun y hy => hpre y (by simp [hy]))]
    simp [ht, Except.toOption]

/-- C4, amended: a record whose name label does not parse under the
`<int>_<name>` convention raises an uncaught error inside the tab loop, so
page data initialization aborts: the tabs built from earlier records are
retained (unsorted), while the bad record's tab and every later record's tab
are NOT produced; construction does not continue. -/
theorem tab_init_abort (pre : List TabData) (d : TabData) (post : List TabData)
    (hpre : ∀ x ∈ pre, ∃ t, webPageTab_init x = .ok t)
    (hd : ∀ t, webPageTab_init d ≠ .ok t) :
    (initialize_tabs (pre ++ d :: post)).1
        = pre.filterMap (fun x => (webPageTab_init x).toOption) ∧
      (initialize_tabs (pre ++ d :: post)).2.isSome := by
  have he : ∃ e, webPageTab_init d = .error e := by
    cases hcase : webPageTab_init d with
    | ok t => exact absurd hcase (hd t)
    | error e => exact ⟨e, rfl⟩
  rcases he with ⟨e, he⟩
  rw [initialize_tabs, initialize_tabs_go_abort d post e he pre [] hpre]
  simp

/-- C4, witness: records `1_A`, bad `X`, `2_B`. -/
theorem tab_init_abort_witness :
    (∀ x ∈ [(⟨"K1", "1_A"⟩ : TabData)], ∃ t, webPageTab_init x = .ok t) ∧
      (∀ t, webPageTab_init ⟨"K2", "X"⟩ ≠ .ok t) ∧
      ((initialize_tabs ([⟨"K1", "1_A"⟩] ++ ⟨"K2", "X"⟩ :: [⟨"K3", "2_B"⟩])).1
          = [(⟨"K1", "1_A"⟩ : TabData)].filterMap
              (fun x => (webPageTab_init x).toOption) ∧
        (initialize_tabs ([⟨"K1", "1_A"⟩] ++ ⟨"K2", "X"⟩ :: [⟨"K3", "2_B"⟩])).2.isSome) := by
  have h1 : ∀ x ∈ [(⟨"K1", "1_A"⟩ : TabData)], ∃ t, webPageTab_init x = .ok t := by
    intro x hx
    simp only [List.mem_singleton] at hx
    subst hx
    exact ⟨⟨"K1", 1, ['A'], ['a']⟩, rfl⟩
  have h2 : ∀ t, webPageTab_init ⟨"K2", "X"⟩ ≠ .ok t := by
    intro t ht
    rw [show webPageTab_init ⟨"K2", "X"⟩ = .error "AssertionError" from rfl] at ht
    exact Except.noConfusion ht
  exact ⟨h1, h2, tab_init_abort [⟨"K1", "1_A"⟩] ⟨"K2", "X"⟩ [⟨"K3", "2_B"⟩] h1 h2⟩

/-! ## Image reference discovery and tag rewriting

`discover_one` embeds `HtmlContent.discover_missing_images` (zotero_reader.py
lines 284-325) applied to one image source: split the final path segment,
build the big 1200x1200 variant filename and the zotero title, then record
the small variant (parsing the `w`/`h` hints, which can raise) when its
on-disk file is missing and the big variant when its file is missing; a
group is appended only when at least one variant is missing.  The on-disk
image store is an association list `path -> bytes` (bytes abstracted as a
natural number).  `replace_img` embeds `HtmlContent.replace_img` (lines
270-282): `src = soup_img.get('src').encode('utf-8')` raises
`AttributeError` when the tag has no `src` (`None.encode`); otherwise the
tag is rewritten to the small href and wrapped in an `<a>` pointing at the
big href. -/

/-- A variant still to materialize: `(img_loc, width, height)`. -/
abbrev VariantReq := List Char × Option Nat × Option Nat

/-- A missing-images entry: `(img_zot_title, image_details)`. -/
abbrev MissingGroup := List Char × List VariantReq

instance : DecidableEq VariantReq := inferInstance

instance : DecidableEq MissingGroup := inferInstance

/-- Association-list lookup (first match wins), modelling both the on-disk
file store (`os.path.isfile` + file contents) and dictionaries keyed by
strings. -/
def lookupA (l : List (List Char × Nat)) (k : List Char) : Option Nat :=
  (l.find? (fun kv => kv.1 == k)).map (fun kv => kv.2)

def smlLocOf (imgDir f : List Char) : List Char := imgDir ++ f

def discover_one (imgDir : List Char) (fs : List (List Char × Nat))
    (f : List Char) : Except String (Option MissingGroup) :=
  match splitName f with
  | none => .error "ValueError"
  | some (p0, ext, rest) =>
    let title := p0 ++ '.' :: ext
    let smlLoc := smlLocOf imgDir f
    let bigLoc := imgDir ++ (p0 ++ ("_w1200_h1200.").toList ++ ext)
    let d2 : List VariantReq :=
      if (lookupA fs bigLoc).isNone then [(bigLoc, some 1200, some 1200)] else []
    if (lookupA fs smlLoc).isNone then
      match parseWH rest with
      | none => .error "ValueError"
      | some wh => .ok (some (title, (smlLoc, wh.1, wh.2) :: d2))
    else
      .ok (if d2.isEmpty then none else some (title, d2))

/-- The `<img>` rewriting step: on a tag without `src`, `None.encode` raises;
otherwise the tag's missing variants are discovered (which can itself raise)
and the rewritten `<a href=big><img src=sml></a>` pair is produced. -/
def replace_img (imgDir : List Char) (fs : List (List Char × Nat)) (e : Elem) :
    Except String ((Elem × Elem) × Option MissingGroup) :=
  match getAttr e "src" with
  | none => .error "AttributeError"
  | some src =>
    let f := ((pySplit '/' src.toList).getLast?).getD []
    match discover_one imgDir fs f with
    | .error msg => .error msg
    | .ok g =>
      let smlHref := ("img/").toList ++ f
      let bigHref : List Char :=
        match splitName f with
        | some (p0, ext, _) => ("img/").toList ++ p0 ++ ("_w1200_h1200.").toList ++ ext
        | none => []
      .ok ((Elem.mk "a" [("href", String.mk bigHref)],
            setAttr e "src" (String.mk smlHref)), g)

/-- The `for soup_img in soup.find_all('img')` loop of `process_html_tags`:
every img tag is rewritten in order, collecting the missing groups; the
first uncaught exception aborts processing of the whole fragment. -/
def process_img_tags (imgDir : List Char) (fs : List (List Char × Nat)) :
    List Elem → Except String (List Elem × List MissingGroup)
  | [] => .ok ([], [])
  | e :: rest =>
    if e.name == "img" then
      match replace_img imgDir fs e with
      | .error msg => .error msg
      | .ok (e2, g) =>
        match process_img_tags imgDir fs rest with
        | .error msg => .error msg
        | .ok (es, gs) => .ok (e2.1 :: e2.2 :: es, g.toList ++ gs)
    else
      match process_img_tags imgDir fs rest with
      | .error msg => .error msg
      | .ok (es, gs) => .ok (e :: es, gs)

/-- C5: an `<img>` tag with no `src` attribute crashes the fragment
(AttributeError from `None.encode('utf-8')`) instead of being removed: no
rewritten document and no materialization requests are produced for the
fragment, including its remaining tags.  This contradicts both the claim
and the function's own docstring ("If the img tag has no src, then remove
the tag"). -/
theorem img_without_src_crashes :
    replace_img ("img/").toList [] ⟨"img", []⟩ = .error "AttributeError" ∧
      process_img_tags ("img/").toList []
          [⟨"img", []⟩, ⟨"p", []⟩, ⟨"img", [("src", "photo.jpg")]⟩]
        = .error "AttributeError" := by
  refine ⟨rfl, rfl⟩

/-! ## Zotero items and paper formatting

Embedding of `Item`, `ConferencePaper`, `JournalPaper`, `ResearchProject`
(zotero_reader.py lines 570-704).  A zotero record is modelled as a record
of the fields the formatters read (in Python it is a dict; fields a given
item type never touches are simply ignored).  `Item.__init__` keeps the last
four characters of the date and sets `sort_key = ""`;
`ConferencePaper.__init__`/`JournalPaper.__init__` then compute
`year = self.date[:-4]` from that already-truncated date.  Rendered html is
produced as plain strings (BeautifulSoup serialization is treated as the
black-box `str(soup)`). -/

structure Creator where
  firstName : Option String
  lastName : Option String
deriving DecidableEq

structure ItemData where
  title : String
  date : String
  pages : String
  abstractNote : String
  creators : List Creator
  proceedingsTitle : String
  publicationTitle : String
  volume : String
  issue : String
  place : String
  institution : String
  reportType : String
  rights : String
  reportNumber : String
deriving DecidableEq

/-- Python `s[-n:]` (the whole string when shorter). -/
def pySliceLast (n : Nat) (s : String) : String :=
  String.mk (s.toList.drop (s.toList.length - n))

/-- Python `s[:-n]` (empty when not longer than `n`). -/
def pyDropLast (n : Nat) (s : String) : String :=
  String.mk (s.toList.take (s.toList.length - n))

/-- Python `s.split()` restricted to spaces: maximal nonempty words. -/
def pyWords (s : List Char) : List (List Char) :=
  (pySplit ' ' s).filter (fun w => !w.isEmpty)

/-- `"".join([word[:1] for word in first.split()])`. -/
def initialsOf (first : String) : String :=
  String.mk (((pyWords first.toList).map (fun w => w.take 1)).flatten)

/-- `Item.set_authors`: keep creators having both name keys, formatted as
`last, first-initials`. -/
def set_authors (creators : List Creator) : List String :=
  creators.filterMap (fun a =>
    match a.firstName, a.lastName with
    | some f, some l => some (l ++ ", " ++ initialsOf f)
    | _, _ => none)

structure ItemBase where
  uid : String
  authors : List String
  title : String
  date : String
  pages : String
  abstract : String
  sort_key : String
deriving DecidableEq

def mkItemBase (uid : String) (d : ItemData) : ItemBase :=
  ⟨uid, set_authors d.creators, d.title, pySliceLast 4 d.date, d.pages,
    d.abstractNote, ""⟩

inductive PubObj where
  | conf : ItemBase → String → String → PubObj
  | journal : ItemBase → String → String → String → String → PubObj
  | project : ItemBase → String → String → String → String → String → PubObj
deriving DecidableEq

def PubObj.base : PubObj → ItemBase
  | .conf b _ _ => b
  | .journal b _ _ _ _ => b
  | .project b _ _ _ _ _ => b

def mkConferencePaper (uid : String) (d : ItemData) : PubObj :=
  let b := mkItemBase uid d
  .conf b d.proceedingsTitle (pyDropLast 4 b.date)

def mkJournalPaper (uid : String) (d : ItemData) : PubObj :=
  let b := mkItemBase uid d
  .journal b d.publicationTitle (pyDropLast 4 b.date) d.volume d.issue

def mkResearchProject (uid : String) (d : ItemData) : PubObj :=
  let b := mkItemBase uid d
  .project b d.place d.institution d.reportType d.rights d.reportNumber

/-- `Item.get_authors`; an empty author list reaches `self.authors[-1]` and
raises `IndexError`. -/
def get_authors (authors : List String) : Except String String :=
  if authors.length = 1 then .ok (authors.headD "")
  else if authors.length = 2 then
    .ok (authors.headD "" ++ " and " ++ (authors.getD 1 ""))
  else
    match authors.getLast? with
    | none => .error "IndexError"
    | some last =>
      .ok (String.intercalate "; " authors.dropLast ++ " and " ++ last)

/-- A single quote character, written as an escape to keep the html strings
readable. -/
def sq : String := "\x27"

/-- `Item.get_abstract_para`. -/
def get_abstract_para (uid abstract : String) : String :=
  "<p class=" ++ sq ++ "abstract" ++ sq ++ " id=" ++ sq ++ uid ++ sq ++ ">"
    ++ abstract ++ "</p>"

/-- `get_list_item` of the three item classes.  The ResearchProject variant
builds its `<li>` through `bs_create_tag`; its serialized form is modelled
as the corresponding nested tag string. -/
def PubObj.get_list_item : PubObj → Except String String
  | .conf b conference year => do
    let authors ← get_authors b.authors
    let author_str :=
      "<button class=" ++ sq ++ "toggle" ++ sq ++ " target=" ++ sq ++ "#"
        ++ b.uid ++ sq ++ ">+</button>"
      ++ "<p class=publication>"
      ++ "<pa>" ++ authors ++ "</pa> "
      ++ "<py>(" ++ year ++ ")</py> "
      ++ "<pt>" ++ b.title ++ "</pt>, "
      ++ "<pc>" ++ conference ++ "</pc>, "
      ++ "<pp>pp. " ++ b.pages ++ "</pp>."
      ++ "</p>"
    pure ("<li>" ++ author_str ++ "\n" ++ get_abstract_para b.uid b.abstract
      ++ "</li>\n")
  | .journal b jname year volume issue => do
    let authors ← get_authors b.authors
    let author_str :=
      "<button class=" ++ sq ++ "toggle" ++ sq ++ " target=" ++ sq ++ "#"
        ++ b.uid ++ sq ++ ">+</button>"
      ++ "<p class=publication>"
      ++ "<pa>" ++ authors ++ "</pa> "
      ++ "<py>(" ++ year ++ ")</py> "
      ++ "<pt>" ++ b.title ++ "</pt>, "
      ++ "<pj>" ++ jname ++ " " ++ volume ++ "(" ++ issue ++ ")" ++ "</pj>, "
      ++ "<pp>pp. " ++ b.pages ++ "</pp>."
      ++ "</p>"
    pure ("<li>" ++ author_str ++ "\n" ++ get_abstract_para b.uid b.abstract
      ++ "</li>\n")
  | .project b place institution rtype funding projectNumber =>
    pure ("<li><button class=" ++ sq ++ "toggle" ++ sq ++ " target=" ++ sq
      ++ "#" ++ b.uid ++ sq ++ "></button><p class=" ++ sq ++ "publication"
      ++ sq ++ ">"
      ++ "<phtj-rp-title>" ++ b.title ++ "</phtj-rp-title>"
      ++ "<phtj-rp-pi>--</phtj-rp-pi>"
      ++ "<phtj-rp-copis>--</phtj-rp-copis>"
      ++ "<phtj-rp-collabs>--</phtj-rp-collabs>"
      ++ "<phtj-rp-duration>--</phtj-rp-duration>"
      ++ "<phtj-rp-place>" ++ place ++ "</phtj-rp-place>"
      ++ "<phtj-rp-institution>" ++ institution ++ "</phtj-rp-institution>"
      ++ "<phtj-rp-type>" ++ rtype ++ "</phtj-rp-type>"
      ++ "<phtj-rp-funding>" ++ funding ++ "</phtj-rp-funding>"
      ++ "<phtj-rp-abstract>" ++ b.abstract ++ "</phtj-rp-abstract>"
      ++ "</p></li>")

/-! ## Directive evaluation

`create_pre_objects`/`create_pre_replacement` embed
`HtmlContent.create_pre_replacement` (zotero_reader.py lines 450-474): the
style is looked up in the `mapping` dict (`KeyError` when unknown, raised on
the first loop iteration, so an empty item list never raises), one object is
built per item with `uid = str(i)`, and the list is sorted with
`objects.sort(key=lambda paper: obj.sort_key, reverse=True)` — note the
closure captures the LOOP VARIABLE `obj` (the last object built), so the key
is constant and the stable sort leaves the original order unchanged;
`Item.sort_key` is moreover always the empty string.  `replace_pre` embeds
`HtmlContent.replace_pre` (lines 373-414): `result = eval(soup_pre.string)`
executes the directive text as Python (modelled by `PyExpr`, whose
`codeWithEffect` constructor carries the observable side effects of
arbitrary code); only the `eval` call itself is guarded by try/except, the
subsequent key lookups (`result['group']`, `result['coll']`, ...) and
`create_pre_replacement` raise uncaught exceptions. -/

/-- Python string comparison `x <= y` (lexicographic by code point). -/
def pyCharsLe : List Char → List Char → Bool
  | [], _ => true
  | _ :: _, [] => false
  | a :: as, b :: bs =>
    if a.toNat < b.toNat then true
    else if b.toNat < a.toNat then false
    else pyCharsLe as bs

def pyStrLe (x y : String) : Bool := pyCharsLe x.toList y.toList

/-- Stable descending insertion by key (Python `list.sort(key=...,
reverse=True)`; `reverse=True` keeps equal-key elements in original
order). -/
def pyInsertRevByKey (key : α → String) (x : α) : List α → List α
  | [] => [x]
  | y :: ys =>
    if pyStrLe (key y) (key x) then x :: y :: ys
    else y :: pyInsertRevByKey key x ys

def pySortRevByKey (key : α → String) (l : List α) : List α :=
  l.foldr (pyInsertRevByKey key) []

def styleMapping (style : String) : Option (String → ItemData → PubObj) :=
  if style == "conference_paper" then some mkConferencePaper
  else if style == "journal_paper" then some mkJournalPaper
  else if style == "research_project" then some mkResearchProject
  else none

/-- The object-construction loop and the (buggy) sort of
`create_pre_replacement`; returns the objects in the order the `<li>` items
are appended to the `<ul>`. -/
def create_pre_objects (items : List ItemData) (style : String) :
    Except String (List PubObj) :=
  match items with
  | [] => .ok []
  | _ :: _ =>
    match styleMapping style with
    | none => .error "KeyError"
    | some mk =>
      let objects := items.enum.map (fun p => mk (Nat.repr p.1) p.2)
      match objects.getLast? with
      | none => .ok []
      | some lastObj =>
        .ok (pySortRevByKey (fun _ => lastObj.base.sort_key) objects)

/-- The rendered children of the `<ul class=publications-list>`. -/
def create_pre_replacement (items : List ItemData) (style : String) :
    Except String (List String) :=
  match create_pre_objects items style with
  | .error e => .error e
  | .ok objs => objs.mapM PubObj.get_list_item

/-- The directive text handed to `eval`.  `dictLit` is an inert dict
literal; `codeWithEffect` is arbitrary code that performs observable side
effects before yielding a dict; `raising` is code whose evaluation raises
(caught by the try/except around `eval`). -/
inductive PyExpr where
  | dictLit (entries : List (String × String))
  | codeWithEffect (effects : List String) (entries : List (String × String))
  | raising (msg : String)
deriving DecidableEq

/-- `eval(soup_pre.string)`: the performed side effects, and the resulting
value or exception. -/
def pyEval : PyExpr → List String × Except String (List (String × String))
  | .dictLit es => ([], .ok es)
  | .codeWithEffect effs es => (effs, .ok es)
  | .raising msg => ([], .error msg)

def pyDictGet (d : List (String × String)) (k : String) : Option String :=
  (d.find? (fun kv => kv.1 == k)).map (fun kv => kv.2)

/-- `HtmlContent.replace_pre`.  Returns the side effects performed by
evaluating the directive text, and either the rendered replacement list
(`some`), `none` when `eval` failed (block left in place with a diagnostic),
or an uncaught exception. -/
def replace_pre
    (query : String → String → String → Option String → List ItemData)
    (preText : PyExpr) :
    List String × Except String (Option (List String)) :=
  let r := pyEval preText
  match r.2 with
  | .error _ => (r.1, .ok none)
  | .ok d =>
    match pyDictGet d "group", pyDictGet d "coll",
        pyDictGet d "item_type", pyDictGet d "style" with
    | some g, some c, some it, some st =>
      let tag := pyDictGet d "tag"
      let items := query g c it tag
      (r.1, (create_pre_replacement items st).map some)
    | _, _, _, _ => (r.1, .error "KeyError")

/-- C1: the directive block IS evaluated as executable code.  Two directive
texts declaring exactly the same field values — one an inert dict literal,
one arbitrary code yielding that dict — produce the same replacement yet the
code's side effects are executed, so the behaviour does not depend only on
the declared fields.  Moreover the record keys the code actually requires
are `group`/`coll`/`item_type`/`style`: a record using the documented key
`collection` raises an uncaught KeyError. -/
theorem replace_pre_executes_directive_code :
    (replace_pre (fun _ _ _ _ => [])
        (PyExpr.codeWithEffect ["write-to-filesystem"]
          [("group", "G"), ("coll", "C"), ("item_type", "conferencePaper"),
            ("style", "conference_paper")])).1
      = ["write-to-filesystem"] ∧
    (replace_pre (fun _ _ _ _ => [])
        (PyExpr.dictLit
          [("group", "G"), ("coll", "C"), ("item_type", "conferencePaper"),
            ("style", "conference_paper")])).1
      = [] ∧
    (replace_pre (fun _ _ _ _ => [])
        (PyExpr.codeWithEffect ["write-to-filesystem"]
          [("group", "G"), ("coll", "C"), ("item_type", "conferencePaper"),
            ("style", "conference_paper")])).2
      = (replace_pre (fun _ _ _ _ => [])
        (PyExpr.dictLit
          [("group", "G"), ("coll", "C"), ("item_type", "conferencePaper"),
            ("style", "conference_paper")])).2 ∧
    (replace_pre (fun _ _ _ _ => [])
        (PyExpr.dictLit
          [("group", "G"), ("collection", "C"), ("item_type", "conferencePaper"),
            ("style", "conference_paper")])).2
      = .error "KeyError" := by
  refine ⟨rfl, rfl, rfl, rfl⟩

/-- C2: the rendered items are NOT sorted by descending year.  For a
conference_paper directive over two records dated 2018 and 2020 (in that
order), the sort key is the constant `""` — the lambda
`lambda paper: obj.sort_key` reads the loop variable `obj` (the last object
built), and `Item.sort_key` is always `""`; `ConferencePaper.year` is even
`self.date[:-4] = ""` since `date` was already cut to its last four
characters — so the stable sort preserves the original order and the 2018
record is rendered before the 2020 record. -/
theorem conference_papers_not_sorted_by_year :
    create_pre_objects
        [ItemData.mk "Old Paper" "2018" "10-20" "abs-old"
            [Creator.mk (some "John") (some "Smith")] "ConfA"
            "" "" "" "" "" "" "" "",
          ItemData.mk "New Paper" "2020" "30-40" "abs-new"
            [Creator.mk (some "Jane") (some "Doe")] "ConfB"
            "" "" "" "" "" "" "" ""]
        "conference_paper"
      = .ok
        [PubObj.conf
            (ItemBase.mk "0" ["Smith, J"] "Old Paper" "2018" "10-20" "abs-old" "")
            "ConfA" "",
          PubObj.conf
            (ItemBase.mk "1" ["Doe, J"] "New Paper" "2020" "30-40" "abs-new" "")
            "ConfB" ""] := by
  decide

/-! ## Asset materialization

`download_image` embeds `HtmlImage.download_image` (zotero_reader.py lines
524-529): the fetch is memoized per zotero title (`self.images` maps each
title to one `HtmlImage`, whose `temp_img_filepath` caches the downloaded
bytes), and every actual network fetch is recorded in `fetchLog`.
`create_image_file` embeds `HtmlImage.create_image_file` (lines 531-564) on
its success path: download (cache hit after the group-level download),
compute the fitted size (`fitSize`), encode and write to the target path
(`pilNative`/`pilEncode` abstract the PIL decode of native size and the
encode of resized bytes; both are pure functions of their inputs).
`get_images_from_zotero` embeds `HtmlContent.get_images_from_zotero` (lines
349-371): for each missing group, a title absent from the attachment catalog
is skipped with a diagnostic, otherwise the image is downloaded once and
each missing variant is written.  `discoverAll` is the `missing_images`
list accumulated by processing the fragment's img sources in document
order against a fixed file store (no writes happen during discovery). -/

structure MState where
  fs : List (List Char × Nat)
  temps : List (List Char × Nat)
  fetchLog : List (List Char)
deriving DecidableEq

def mkSt (fs : List (List Char × Nat)) : MState := ⟨fs, [], []⟩

def download_image (remote : Nat) (title : List Char) (st : MState) :
    Nat × MState :=
  match lookupA st.temps title with
  | some b => (b, st)
  | none =>
    (remote, ⟨st.fs, (title, remote) :: st.temps, st.fetchLog ++ [title]⟩)

def create_image_file (pilNative : Nat → Nat × Nat)
    (pilEncode : Nat → Nat × Nat → Nat) (remote : Nat) (title : List Char)
    (v : VariantReq) (st : MState) : MState :=
  let p := download_image remote title st
  let nsz := pilNative p.1
  ⟨(v.1, pilEncode p.1 (fitSize nsz.1 nsz.2 v.2.1 v.2.2)) :: p.2.fs,
    p.2.temps, p.2.fetchLog⟩

def materialize_group (pilNative : Nat → Nat × Nat)
    (pilEncode : Nat → Nat × Nat → Nat) (catalog : List (List Char × Nat))
    (g : MissingGroup) (st : MState) : MState :=
  match lookupA catalog g.1 with
  | none => st
  | some remote =>
    let st1 := (download_image remote g.1 st).2
    g.2.foldl (fun s v => create_image_file pilNative pilEncode remote g.1 v s)
      st1

def get_images_from_zotero (pilNative : Nat → Nat × Nat)
    (pilEncode : Nat → Nat × Nat → Nat) (catalog : List (List Char × Nat))
    (missing : List MissingGroup) (st : MState) : MState :=
  missing.foldl
    (fun s g => materialize_group pilNative pilEncode catalog g s) st

def discoverAll (imgDir : List Char) (srcs : List (List Char))
    (fs : List (List Char × Nat)) : Except String (List MissingGroup) :=
  match srcs with
  | [] => .ok []
  | f :: rest =>
    match discover_one imgDir fs f with
    | .error e => .error e
    | .ok g =>
      match discoverAll imgDir rest fs with
      | .error e => .error e
      | .ok gs => .ok (g.toList ++ gs)

theorem lookupA_cons_self (k : List Char) (v : Nat)
    (l : List (List Char × Nat)) : lookupA ((k, v) :: l) k = some v := by
  simp [lookupA, List.find?]

theorem lookupA_cons_preserve (p : List Char × Nat)
    (l : List (List Char × Nat)) (k : List Char)
    (h : lookupA l k ≠ none) : lookupA (p :: l) k ≠ none := by
  simp only [lookupA, List.find?]
  cases hpk : p.1 == k
  · simpa [lookupA] using h
  · simp

/-- The per-build invariant relating the fetch log to the byte cache: every
fetched title is cached, and no title is fetched twice. -/
def FetchInv (st : MState) : Prop :=
  (∀ u ∈ st.fetchLog, lookupA st.temps u ≠ none) ∧ st.fetchLog.Nodup

theorem download_image_fs (r : Nat) (t : List Char) (st : MState) :
    (download_image r t st).2.fs = st.fs := by
  cases h : lookupA st.temps t <;> simp [download_image, h]

theorem download_image_temps_mono (r : Nat) (t k : List Char) (st : MState)
    (h : lookupA st.temps k ≠ none) :
    lookupA (download_image r t st).2.temps k ≠ none := by
  cases hl : lookupA st.temps t
  · simp only [download_image, hl]
    exact lookupA_cons_preserve _ _ _ h
  · simpa [download_image, hl] using h

theorem download_image_log_mem (r : Nat) (t k : List Char) (st : MState)
    (h : k ∈ (download_image r t st).2.fetchLog) :
    k ∈ st.fetchLog ∨ k = t := by
  cases hl : lookupA st.temps t
  · simp only [download_image, hl] at h
    simpa using h
  · simp only [download_image, hl] at h
    exact Or.inl h

theorem download_image_inv (r : Nat) (t : List Char) (st : MState)
    (h : FetchInv st) : FetchInv (download_image r t st).2 := by
  cases hl : lookupA st.temps t
  · simp only [download_image, hl]
    constructor
    · intro u hu
      simp only [List.mem_append, List.mem_singleton] at hu
      rcases hu with hu | hu
      · exact lookupA_cons_preserve _ _ _ (h.1 u hu)
      · subst hu
        rw [lookupA_cons_self]
        simp
    · rw [List.nodup_append]
      refine ⟨h.2, List.nodup_singleton t, ?_⟩
      intro u hu hut
      simp only [List.mem_singleton] at hut
      subst hut
      exact h.1 u hu hl
  · simpa [download_image, hl] using h

theorem create_image_file_fs_mono (pN : Nat → Nat × Nat)
    (pE : Nat → Nat × Nat → Nat) (r : Nat) (t : List Char) (v : VariantReq)
    (st : MState) (k : List Char) (h : lookupA st.fs k ≠ none) :
    lookupA (create_image_file pN pE r t v st).fs k ≠ none := by
  simp only [create_image_file]
  apply lookupA_cons_preserve
  rw [download_image_fs]
  exact h

theorem create_image_file_fs_self (pN : Nat → Nat × Nat)
    (pE : Nat → Nat × Nat → Nat) (r : Nat) (t : List Char) (v : VariantReq)
    (st : MState) :
    lookupA (create_image_file pN pE r t v st).fs v.1 ≠ none := by
  simp only [create_image_file, lookupA_cons_self]
  simp

theorem create_image_file_temps_mono (pN : Nat → Nat × Nat)
    (pE : Nat → Nat × Nat → Nat) (r : Nat) (t : List Char) (v : VariantReq)
    (st : MState) (k : List Char) (h : lookupA st.temps k ≠ none) :
    lookupA (create_image_file pN pE r t v st).temps k ≠ none := by
  simp only [create_image_file]
  exact download_image_temps_mono r t k st h

theorem create_image_file_log_mem (pN : Nat → Nat × Nat)
    (pE : Nat → Nat × Nat → Nat) (r : Nat) (t : List Char) (v : VariantReq)
    (st : MState) (k : List Char)
    (h : k ∈ (create_image_file pN pE r t v st).fetchLog) :
    k ∈ st.fetchLog ∨ k = t := by
  simp only [create_image_file] at h
  exact download_image_log_mem r t k st h

theorem create_image_file_inv (pN : Nat → Nat × Nat)
    (pE : Nat → Nat × Nat → Nat) (r : Nat) (t : List Char) (v : VariantReq)
    (st : MState) (h : FetchInv st) :
    FetchInv (create_image_file pN pE r t v st) := by
  have h2 := download_image_inv r t st h
  simp only [create_image_file]
  exact h2

theorem varfold_fs_mono (pN : Nat → Nat × Nat) (pE : Nat → Nat × Nat → Nat)
    (r : Nat) (t : List Char) (vs : List VariantReq) :
    ∀ (st : MState) (k : List Char), lookupA st.fs k ≠ none →
    lookupA (vs.foldl (fun s v => create_image_file pN pE r t v s) st).fs k
      ≠ none := by
  induction vs with
  | nil => intro st k h; exact h
  | cons v vs ih =>
    intro st k h
    exact ih _ k (create_image_file_fs_mono pN pE r t v st k h)

theorem varfold_cover (pN : Nat → Nat × Nat) (pE : Nat → Nat × Nat → Nat)
    (r : Nat) (t : List Char) (vs : List VariantReq) :
    ∀ (st : MState) (v : VariantReq), v ∈ vs →
    lookupA (vs.foldl (fun s v => create_image_file pN pE r t v s) st).fs v.1
      ≠ none := by
  induction vs with
  | nil => intro st v h; simp at h
  | cons w vs ih =>
    intro st v h
    rcases List.mem_cons.1 h with h | h
    · subst h
      exact varfold_fs_mono pN pE r t vs _ v.1
        (create_image_file_fs_self pN pE r t v st)
    · exact ih _ v h

theorem varfold_temps_mono (pN : Nat → Nat × Nat) (pE : Nat → Nat × Nat → Nat)
    (r : Nat) (t : List Char) (vs : List VariantReq) :
    ∀ (st : MState) (k : List Char), lookupA st.temps k ≠ none →
    lookupA (vs.foldl (fun s v => create_image_file pN pE r t v s) st).temps k
      ≠ none := by
  induction vs with
  | nil => intro st k h; exact h
  | cons v vs ih =>
    intro st k h
    exact ih _ k (create_image_file_temps_mono pN pE r t v st k h)

theorem varfold_log_mem (pN : Nat → Nat × Nat) (pE : Nat → Nat × Nat → Nat)
    (r : Nat) (t : List Char) (vs : List VariantReq) :
    ∀ (st : MState) (k : List Char),
    k ∈ (vs.foldl (fun s v => create_image_file pN pE r t v s) st).fetchLog →
    k ∈ st.fetchLog ∨ k = t := by
  induction vs with
  | nil => intro st k h; exact Or.inl h
  | cons v vs ih =>
    intro st k h
    rcases ih _ k h with h2 | h2
    · exact create_image_file_log_mem pN pE r t v st k h2
    · exact Or.inr h2

theorem varfold_inv (pN : Nat → Nat × Nat) (pE : Nat → Nat × Nat → Nat)
    (r : Nat) (t : List Char) (vs : List VariantReq) :
    ∀ st : MState, FetchInv st →
    FetchInv (vs.foldl (fun s v => create_image_file pN pE r t v s) st) := by
  induction vs with
  | nil => intro st h; exact h
  | cons v vs ih =>
    intro st h
    exact ih _ (create_image_file_inv pN pE r t v st h)

theorem materialize_group_miss (pN : Nat → Nat × Nat)
    (pE : Nat → Nat × Nat → Nat) (catalog : List (List Char × Nat))
    (g : MissingGroup) (st : MState) (h : lookupA catalog g.1 = none) :
    materialize_group pN pE catalog g st = st := by
  simp [materialize_group, h]

theorem materialize_group_fs_mono (pN : Nat → Nat × Nat)
    (pE : Nat → Nat × Nat → Nat) (catalog : List (List Char × Nat))
    (g : MissingGroup) (st : MState) (k : List Char)
    (h : lookupA st.fs k ≠ none) :
    lookupA (materialize_group pN pE catalog g st).fs k ≠ none := by
  cases hc : lookupA catalog g.1
  · rw [materialize_group_miss pN pE catalog g st hc]
    exact h
  · simp only [materialize_group, hc]
    apply varfold_fs_mono
    rw [download_image_fs]
    exact h

theorem materialize_group_temps_mono (pN : Nat → Nat × Nat)
    (pE : Nat → Nat × Nat → Nat) (catalog : List (List Char × Nat))
    (g : MissingGroup) (st : MState) (k : List Char)
    (h : lookupA st.temps k ≠ none) :
    lookupA (materialize_group pN pE catalog g st).temps k ≠ none := by
  cases hc : lookupA catalog g.1
  · rw [materialize_group_miss pN pE catalog g st hc]
    exact h
  · simp only [materialize_group, hc]
    apply varfold_temps_mono
    exact download_image_temps_mono _ _ _ _ h

theorem materialize_group_cover (pN : Nat → Nat × Nat)
    (pE : Nat → Nat × Nat → Nat) (catalog : List (List Char × Nat))
    (g : MissingGroup) (st : MState) (hc : lookupA catalog g.1 ≠ none)
    (v : VariantReq) (hv : v ∈ g.2) :
    lookupA (materialize_group pN pE catalog g st).fs v.1 ≠ none := by
  cases hcat : lookupA catalog g.1 with
  | none => exact absurd hcat hc
  | some r =>
    simp only [materialize_group, hcat]
    exact varfold_cover pN pE r g.1 g.2 _ v hv

theorem materialize_group_log_mem (pN : Nat → Nat × Nat)
    (pE : Nat → Nat × Nat → Nat) (catalog : List (List Char × Nat))
    (g : MissingGroup) (st : MState) (k : List Char)
    (h : k ∈ (materialize_group pN pE catalog g st).fetchLog) :
    k ∈ st.fetchLog ∨ (k = g.1 ∧ lookupA catalog g.1 ≠ none) := by
  cases hc : lookupA catalog g.1
  · rw [materialize_group_miss pN pE catalog g st hc] at h
    exact Or.inl h
  · simp only [materialize_group, hc] at h
    rcases varfold_log_mem pN pE _ g.1 g.2 _ k h with h2 | h2
    · rcases download_image_log_mem _ g.1 k st h2 with h3 | h3
      · exact Or.inl h3
      · exact Or.inr ⟨h3, by simp [hc]⟩
    · exact Or.inr ⟨h2, by simp [hc]⟩

theorem materialize_group_inv (pN : Nat → Nat × Nat)
    (pE : Nat → Nat × Nat → Nat) (catalog : List (List Char × Nat))
    (g : MissingGroup) (st : MState) (h : FetchInv st) :
    FetchInv (materialize_group pN pE catalog g st) := by
  cases hc : lookupA catalog g.1
  · rw [materialize_group_miss pN pE catalog g st hc]
    exact h
  · simp only [materialize_group, hc]
    exact varfold_inv pN pE _ g.1 g.2 _ (download_image_inv _ g.1 st h)

theorem run_fs_mono (pN : Nat → Nat × Nat) (pE : Nat → Nat × Nat → Nat)
    (catalog : List (List Char × Nat)) (m : List MissingGroup) :
    ∀ (st : MState) (k : List Char), lookupA st.fs k ≠ none →
    lookupA (get_images_from_zotero pN pE catalog m st).fs k ≠ none := by
  induction m with
  | nil => intro st k h; exact h
  | cons g m ih =>
    intro st k h
    exact ih _ k (materialize_group_fs_mono pN pE catalog g st k h)

theorem run_cover (pN : Nat → Nat × Nat) (pE : Nat → Nat × Nat → Nat)
    (catalog : List (List Char × Nat)) (m : List MissingGroup) :
    ∀ (st : MState) (g : MissingGroup), g ∈ m →
    lookupA catalog g.1 ≠ none → ∀ v ∈ g.2,
    lookupA (get_images_from_zotero pN pE catalog m st).fs v.1 ≠ none := by
  induction m with
  | nil => intro st g hg; simp at hg
  | cons g0 m ih =>
    intro st g hg hc v hv
    rcases List.mem_cons.1 hg with hg | hg
    · subst hg
      exact run_fs_mono pN pE catalog m _ v.1
        (materialize_group_cover pN pE catalog g st hc v hv)
    · exact ih _ g hg hc v hv

theorem run_log_mem (pN : Nat → Nat × Nat) (pE : Nat → Nat × Nat → Nat)
    (catalog : List (List Char × Nat)) (m : List MissingGroup) :
    ∀ (st : MState) (k : List Char),
    k ∈ (get_images_from_zotero pN pE catalog m st).fetchLog →
    k ∈ st.fetchLog ∨ ∃ g ∈ m, k = g.1 ∧ lookupA catalog g.1 ≠ none := by
  induction m with
  | nil => intro st k h; exact Or.inl h
  | cons g0 m ih =>
    intro st k h
    rcases ih _ k h with h2 | h2
    · rcases materialize_group_log_mem pN pE catalog g0 st k h2 with h3 | h3
      · exact Or.inl h3
      · exact Or.inr ⟨g0, by simp, h3⟩
    · rcases h2 with ⟨g, hg, h3⟩
      exact Or.inr ⟨g, by simp [hg], h3⟩

theorem run_inv (pN : Nat → Nat × Nat) (pE : Nat → Nat × Nat → Nat)
    (catalog : List (List Char × Nat)) (m : List MissingGroup) :
    ∀ st : MState, FetchInv st →
    FetchInv (get_images_from_zotero pN pE catalog m st) := by
  induction m with
  | nil => intro st h; exact h
  | cons g m ih =>
    intro st h
    exact ih _ (materialize_group_inv pN pE catalog g st h)

theorem run_all_miss (pN : Nat → Nat × Nat) (pE : Nat → Nat × Nat → Nat)
    (catalog : List (List Char × Nat)) (m : List MissingGroup) :
    ∀ st : MState, (∀ g ∈ m, lookupA catalog g.1 = none) →
    get_images_from_zotero pN pE catalog m st = st := by
  induction m with
  | nil => intro st _; rfl
  | cons g m ih =>
    intro st h
    show get_images_from_zotero pN pE catalog m
        (materialize_group pN pE catalog g st) = st
    rw [materialize_group_miss pN pE catalog g st (h g (by simp))]
    exact ih st (fun g2 hg2 => h g2 (by simp [hg2]))

theorem discover_one_some_missing (imgDir : List Char)
    (fs : List (List Char × Nat)) (f : List Char) (g : MissingGroup)
    (h : discover_one imgDir fs f = .ok (some g)) :
    ∃ v ∈ g.2, lookupA fs v.1 = none := by
  unfold discover_one at h
  cases hsp : splitName f with
  | none =>
    rw [hsp] at h
    exact Except.noConfusion h
  | some trip =>
    obtain ⟨p0, ext, rest⟩ := trip
    rw [hsp] at h
    simp only at h
    by_cases hsml : (lookupA fs (smlLocOf imgDir f)).isNone
    · rw [if_pos hsml] at h
      cases hwh : parseWH rest with
      | none =>
        rw [hwh] at h
        exact Except.noConfusion h
      | some wh =>
        rw [hwh] at h
        simp only [Except.ok.injEq, Option.some.injEq] at h
        refine ⟨(smlLocOf imgDir f, wh.1, wh.2), ?_, ?_⟩
        · rw [← h]
          simp
        · simpa [Option.isNone_iff_eq_none] using hsml
    · rw [if_neg hsml] at h
      by_cases hbig :
          (lookupA fs (imgDir ++ (p0 ++ ("_w1200_h1200.").toList ++ ext))).isNone
      · rw [if_pos hbig] at h
        simp only [List.isEmpty_cons, Except.ok.injEq] at h
        simp only [if_neg (by simp : ¬(false = true)), Option.some.injEq] at h
        refine ⟨(imgDir ++ (p0 ++ ("_w1200_h1200.").toList ++ ext),
          some 1200, some 1200), ?_, ?_⟩
        · rw [← h]
          simp
        · simpa [Option.isNone_iff_eq_none] using hbig
      · rw [if_neg hbig] at h
        simp at h

theorem discover_one_second (imgDir : List Char)
    (fs0 fs1 catalog : List (List Char × Nat)) (f : List Char)
    (r : Option MissingGroup)
    (h1 : discover_one imgDir fs0 f = .ok r)
    (hmono : ∀ p, lookupA fs0 p ≠ none → lookupA fs1 p ≠ none)
    (hcov : ∀ g, r = some g → lookupA catalog g.1 ≠ none →
      ∀ v ∈ g.2, lookupA fs1 v.1 ≠ none) :
    ∃ r', discover_one imgDir fs1 f = .ok r' ∧
      ∀ g', r' = some g' → lookupA catalog g'.1 = none := by
  unfold discover_one at h1 ⊢
  cases hsp : splitName f with
  | none =>
    rw [hsp] at h1
    exact Except.noConfusion h1
  | some trip =>
    obtain ⟨p0, ext, rest⟩ := trip
    rw [hsp] at h1
    simp only at h1 ⊢
    by_cases hsml1 : lookupA fs1 (smlLocOf imgDir f) = none
    · -- small variant still missing in the second store
      have hsml0 : lookupA fs0 (smlLocOf imgDir f) = none := by
        by_contra hne
        exact (hmono _ hne) hsml1
      have hc0 : (lookupA fs0 (smlLocOf imgDir f)).isNone = true := by
        rw [hsml0]
        rfl
      have hc1 : (lookupA fs1 (smlLocOf imgDir f)).isNone = true := by
        rw [hsml1]
        rfl
      rw [if_pos hc0] at h1
      cases hwh : parseWH rest with
      | none =>
        rw [hwh] at h1
        exact Except.noConfusion h1
      | some wh =>
        rw [hwh] at h1
        rw [if_pos hc1]
        refine ⟨_, rfl, ?_⟩
        intro g' hg'
        cases hg'
        by_contra hhit
        have hr : r = some (p0 ++ '.' :: ext,
            (smlLocOf imgDir f, wh.1, wh.2) ::
              (if (lookupA fs0 (imgDir ++ (p0 ++ ("_w1200_h1200.").toList
                  ++ ext))).isNone
                then [(imgDir ++ (p0 ++ ("_w1200_h1200.").toList ++ ext),
                  some 1200, some 1200)]
                else [])) := (Except.ok.inj h1).symm
        have hv := hcov _ hr (by exact hhit)
          (smlLocOf imgDir f, wh.1, wh.2) (by simp)
        exact hv hsml1
    · -- small variant already on disk in the second store
      have hc1 : ¬((lookupA fs1 (smlLocOf imgDir f)).isNone = true) := by
        simp only [Option.isNone_iff_eq_none]
        exact hsml1
      rw [if_neg hc1]
      refine ⟨_, rfl, ?_⟩
      intro g' hg'
      by_cases hbig1 :
          lookupA fs1 (imgDir ++ (p0 ++ ("_w1200_h1200.").toList ++ ext)) = none
      · have hb1 : (lookupA fs1 (imgDir ++ (p0 ++ ("_w1200_h1200.").toList
            ++ ext))).isNone = true := by
          rw [hbig1]
          rfl
        rw [if_pos hb1] at hg'
        simp only [List.isEmpty_cons, if_neg (by simp : ¬(false = true)),
          Option.some.injEq] at hg'
        cases hg'
        by_contra hhit
        have hbigne : lookupA fs1
            (imgDir ++ (p0 ++ ("_w1200_h1200.").toList ++ ext)) ≠ none := by
          by_cases hbig0 : lookupA fs0
              (imgDir ++ (p0 ++ ("_w1200_h1200.").toList ++ ext)) = none
          · have hb0 : (lookupA fs0 (imgDir ++ (p0 ++ ("_w1200_h1200.").toList
                ++ ext))).isNone = true := by
              rw [hbig0]
              rfl
            by_cases hsml0 : lookupA fs0 (smlLocOf imgDir f) = none
            · have hc0 : (lookupA fs0 (smlLocOf imgDir f)).isNone = true := by
                rw [hsml0]
                rfl
              rw [if_pos hc0] at h1
              cases hwh : parseWH rest with
              | none =>
                rw [hwh] at h1
                exact Except.noConfusion h1
              | some wh =>
                rw [hwh] at h1
                rw [if_pos hb0] at h1
                have hr : r = some (p0 ++ '.' :: ext,
                    (smlLocOf imgDir f, wh.1, wh.2) ::
                      [(imgDir ++ (p0 ++ ("_w1200_h1200.").toList ++ ext),
                        some 1200, some 1200)]) := (Except.ok.inj h1).symm
                exact hcov _ hr (by exact hhit)
                  (imgDir ++ (p0 ++ ("_w1200_h1200.").toList ++ ext),
                    some 1200, some 1200) (by simp)
            · have hc0 : ¬((lookupA fs0 (smlLocOf imgDir f)).isNone = true) := by
                simp only [Option.isNone_iff_eq_none]
                exact hsml0
              rw [if_neg hc0] at h1
              rw [if_pos hb0] at h1
              simp only [List.isEmpty_cons,
                if_neg (by simp : ¬(false = true))] at h1
              have hr : r = some (p0 ++ '.' :: ext,
                  [(imgDir ++ (p0 ++ ("_w1200_h1200.").toList ++ ext),
                    some 1200, some 1200)]) := (Except.ok.inj h1).symm
              exact hcov _ hr (by exact hhit)
                (imgDir ++ (p0 ++ ("_w1200_h1200.").toList ++ ext),
                  some 1200, some 1200) (by simp)
          · exact hmono _ hbig0
        exact hbigne hbig1
      · have hb1 : ¬((lookupA fs1 (imgDir ++ (p0 ++ ("_w1200_h1200.").toList
            ++ ext))).isNone = true) := by
          simp only [Option.isNone_iff_eq_none]
          exact hbig1
        rw [if_neg hb1] at hg'
        simp at hg'

theorem nodup_count_le_one {α : Type} [BEq α] [LawfulBEq α] {l : List α}
    (h : l.Nodup) (t : α) : l.count t ≤ 1 := by
  induction l with
  | nil => simp
  | cons x xs ih =>
    have hx := List.nodup_cons.1 h
    rw [List.count_cons]
    by_cases he : t = x
    · subst he
      rw [List.count_eq_zero_of_not_mem hx.1]
      simp
    · have hbx : (x == t) = false := by
        simp only [beq_eq_false_iff_ne]
        exact fun hc => he hc.symm
      rw [hbx]
      simpa using ih hx.2

theorem discoverAll_mem (imgDir : List Char) (srcs : List (List Char))
    (fs : List (List Char × Nat)) :
    ∀ m : List MissingGroup, discoverAll imgDir srcs fs = .ok m →
    ∀ f ∈ srcs, ∃ r, discover_one imgDir fs f = .ok r ∧
      ∀ g, r = some g → g ∈ m := by
  induction srcs with
  | nil => intro m h f hf; simp at hf
  | cons f0 rest ih =>
    intro m h f hf
    simp only [discoverAll] at h
    cases h0 : discover_one imgDir fs f0 with
    | error e =>
      rw [h0] at h
      exact Except.noConfusion h
    | ok g0 =>
      rw [h0] at h
      cases hrest : discoverAll imgDir rest fs with
      | error e =>
        rw [hrest] at h
        exact Except.noConfusion h
      | ok gs =>
        rw [hrest] at h
        have hm : m = g0.toList ++ gs := (Except.ok.inj h).symm
        rcases List.mem_cons.1 hf with hf | hf
        · subst hf
          refine ⟨g0, h0, ?_⟩
          intro g hg
          rw [hm, hg]
          simp
        · rcases ih gs hrest f hf with ⟨r, hr1, hr2⟩
          refine ⟨r, hr1, ?_⟩
          intro g hg
          rw [hm]
          exact List.mem_append_right _ (hr2 g hg)

theorem discoverAll_second (imgDir : List Char) (srcs : List (List Char))
    (fs0 fs1 catalog : List (List Char × Nat)) :
    ∀ m : List MissingGroup, discoverAll imgDir srcs fs0 = .ok m →
    (∀ p, lookupA fs0 p ≠ none → lookupA fs1 p ≠ none) →
    (∀ g ∈ m, lookupA catalog g.1 ≠ none →
      ∀ v ∈ g.2, lookupA fs1 v.1 ≠ none) →
    ∃ m2, discoverAll imgDir srcs fs1 = .ok m2 ∧
      ∀ g ∈ m2, lookupA catalog g.1 = none := by
  induction srcs with
  | nil => exact fun m h hmono hcov => ⟨[], rfl, by simp⟩
  | cons f0 rest ih =>
    intro m hdisc hmono hcovAll
    simp only [discoverAll] at hdisc
    cases h0 : discover_one imgDir fs0 f0 with
    | error e =>
      rw [h0] at hdisc
      exact Except.noConfusion hdisc
    | ok r =>
      rw [h0] at hdisc
      cases hrest : discoverAll imgDir rest fs0 with
      | error e =>
        rw [hrest] at hdisc
        exact Except.noConfusion hdisc
      | ok gs =>
        rw [hrest] at hdisc
        have hm : m = r.toList ++ gs := (Except.ok.inj hdisc).symm
        have hcovr : ∀ g, r = some g → lookupA catalog g.1 ≠ none →
            ∀ v ∈ g.2, lookupA fs1 v.1 ≠ none := by
          intro g hg
          apply hcovAll
          rw [hm, hg]
          simp
        obtain ⟨r', hr1, hr2⟩ :=
          discover_one_second imgDir fs0 fs1 catalog f0 r h0 hmono hcovr
        obtain ⟨m2r, hm2a, hm2b⟩ := ih gs hrest hmono
          (fun g hg => hcovAll g (by rw [hm]; exact List.mem_append_right _ hg))
        refine ⟨r'.toList ++ m2r, ?_, ?_⟩
        · simp only [discoverAll, hr1, hm2a]
        · intro g hg
          rcases List.mem_append.1 hg with hg | hg
          · have hsome : r' = some g := by
              cases r' with
              | none => simp at hg
              | some x =>
                simp only [Option.toList_some, List.mem_singleton] at hg
                rw [hg]
            exact hr2 g hsome
          · exact hm2b g hg

/-- C8: (a) within one run, the bytes of a canonical image are fetched at
most once, however many variants and groups need it (the per-title cache);
(b) a group is only formed for an image with at least one missing target
path, so a canonical image all of whose target paths exist is skipped
entirely; (c) every network fetch belongs to some discovered group — an
image with no group causes no network call; (d) after a successful run,
re-discovering against the updated store and materializing again leaves the
on-disk bytes identical and performs zero network fetches. -/
theorem materialize_idempotent_at_most_once
    (pN : Nat → Nat × Nat) (pE : Nat → Nat × Nat → Nat)
    (catalog : List (List Char × Nat)) (imgDir : List Char)
    (srcs : List (List Char)) (fs0 : List (List Char × Nat))
    (m1 : List MissingGroup)
    (hdisc : discoverAll imgDir srcs fs0 = .ok m1) :
    (∀ t,
      (get_images_from_zotero pN pE catalog m1 (mkSt fs0)).fetchLog.count t
        ≤ 1) ∧
    (∀ f g, discover_one imgDir fs0 f = .ok (some g) →
      ∃ v ∈ g.2, lookupA fs0 v.1 = none) ∧
    (∀ t, t ∈ (get_images_from_zotero pN pE catalog m1 (mkSt fs0)).fetchLog →
      ∃ g ∈ m1, t = g.1) ∧
    (∃ m2, discoverAll imgDir srcs
        (get_images_from_zotero pN pE catalog m1 (mkSt fs0)).fs = .ok m2 ∧
      get_images_from_zotero pN pE catalog m2
          (mkSt (get_images_from_zotero pN pE catalog m1 (mkSt fs0)).fs)
        = mkSt (get_images_from_zotero pN pE catalog m1 (mkSt fs0)).fs) := by
  have hinv0 : FetchInv (mkSt fs0) :=
    ⟨fun u hu => absurd hu (List.not_mem_nil u), List.nodup_nil⟩
  refine ⟨?_, ?_, ?_, ?_⟩
  · intro t
    have h := run_inv pN pE catalog m1 (mkSt fs0) hinv0
    exact nodup_count_le_one h.2 t
  · intro f g h
    exact discover_one_some_missing imgDir fs0 f g h
  · intro t ht
    rcases run_log_mem pN pE catalog m1 (mkSt fs0) t ht with h | ⟨g, hg, h1, _⟩
    · exact absurd h (List.not_mem_nil t)
    · exact ⟨g, hg, h1⟩
  · have hmono : ∀ p, lookupA fs0 p ≠ none →
        lookupA (get_images_from_zotero pN pE catalog m1 (mkSt fs0)).fs p
          ≠ none :=
      fun p hp => run_fs_mono pN pE catalog m1 (mkSt fs0) p hp
    have hcovAll : ∀ g ∈ m1, lookupA catalog g.1 ≠ none → ∀ v ∈ g.2,
        lookupA (get_images_from_zotero pN pE catalog m1 (mkSt fs0)).fs v.1
          ≠ none :=
      fun g hg hc v hv => run_cover pN pE catalog m1 (mkSt fs0) g hg hc v hv
    obtain ⟨m2, hm2a, hm2b⟩ := discoverAll_second imgDir srcs fs0 _ catalog
      m1 hdisc hmono hcovAll
    exact ⟨m2, hm2a, run_all_miss pN pE catalog m2 _ hm2b⟩

/-- C8, witness: one source `photo_w300.jpg`, empty disk store, a catalog
holding `photo.jpg`. -/
theorem materialize_idempotent_at_most_once_witness :
    discoverAll ("img/").toList [("photo_w300.jpg").toList] ([] : List (List Char × Nat))
        = .ok [(("photo.jpg").toList,
        [(("img/photo_w300.jpg").toList, some 300, none),
          (("img/photo_w1200_h1200.jpg").toList, some 1200, some 1200)])] ∧
    ((∀ t,
      (get_images_from_zotero (fun _ => ((10, 10) : Nat × Nat)) (fun b _ => (b : Nat))
      [(("photo.jpg").toList, 7)]
      [(("photo.jpg").toList,
        [(("img/photo_w300.jpg").toList, some 300, none),
          (("img/photo_w1200_h1200.jpg").toList, some 1200, some 1200)])]
      (mkSt ([] : List (List Char × Nat)))).fetchLog.count t
        ≤ 1) ∧
    (∀ f g, discover_one ("img/").toList ([] : List (List Char × Nat)) f = .ok (some g) →
      ∃ v ∈ g.2, lookupA ([] : List (List Char × Nat)) v.1 = none) ∧
    (∀ t, t ∈ (get_images_from_zotero (fun _ => ((10, 10) : Nat × Nat)) (fun b _ => (b : Nat))
      [(("photo.jpg").toList, 7)]
      [(("photo.jpg").toList,
        [(("img/photo_w300.jpg").toList, some 300, none),
          (("img/photo_w1200_h1200.jpg").toList, some 1200, some 1200)])]
      (mkSt ([] : List (List Char × Nat)))).fetchLog →
      ∃ g ∈ [(("photo.jpg").toList,
        [(("img/photo_w300.jpg").toList, some 300, none),
          (("img/photo_w1200_h1200.jpg").toList, some 1200, some 1200)])], t = g.1) ∧
    (∃ m2, discoverAll ("img/").toList [("photo_w300.jpg").toList]
        (get_images_from_zotero (fun _ => ((10, 10) : Nat × Nat)) (fun b _ => (b : Nat))
      [(("photo.jpg").toList, 7)]
      [(("photo.jpg").toList,
        [(("img/photo_w300.jpg").toList, some 300, none),
          (("img/photo_w1200_h1200.jpg").toList, some 1200, some 1200)])]
      (mkSt ([] : List (List Char × Nat)))).fs = .ok m2 ∧
      get_images_from_zotero (fun _ => ((10, 10) : Nat × Nat)) (fun b _ => (b : Nat))
          [(("photo.jpg").toList, 7)] m2
          (mkSt (get_images_from_zotero (fun _ => ((10, 10) : Nat × Nat)) (fun b _ => (b : Nat))
      [(("photo.jpg").toList, 7)]
      [(("photo.jpg").toList,
        [(("img/photo_w300.jpg").toList, some 300, none),
          (("img/photo_w1200_h1200.jpg").toList, some 1200, some 1200)])]
      (mkSt ([] : List (List Char × Nat)))).fs)
        = mkSt (get_images_from_zotero (fun _ => ((10, 10) : Nat × Nat)) (fun b _ => (b : Nat))
      [(("photo.jpg").toList, 7)]
      [(("photo.jpg").toList,
        [(("img/photo_w300.jpg").toList, some 300, none),
          (("img/photo_w1200_h1200.jpg").toList, some 1200, some 1200)])]
      (mkSt ([] : List (List Char × Nat)))).fs)) :=
  ⟨by decide,
    materialize_idempotent_at_most_once (fun _ => ((10, 10) : Nat × Nat)) (fun b _ => (b : Nat))
      [(("photo.jpg").toList, 7)] ("img/").toList [("photo_w300.jpg").toList] ([] : List (List Char × Nat))
      [(("photo.jpg").toList,
        [(("img/photo_w300.jpg").toList, some 300, none),
          (("img/photo_w1200_h1200.jpg").toList, some 1200, some 1200)])]
      (by decide)⟩

end Webtero
